import Mathlib

/-!
Verification of the story_cli persistence layer (project/character record
stores, character index, name sanitizer) against its specification.

The Python sources are shallowly embedded: Pydantic models become Lean
structures, the filesystem becomes explicit state records (association lists
from directory names to contents), `datetime.now()` becomes an explicit `now`
tick, and raised exceptions become `Except` errors.  Python `str.lower` /
`str.isalnum` are modelled per-character (the tool's names are ASCII;
multi-character Unicode case mappings are out of scope of the model).
-/

namespace StoryCli

/-- Models Python `str.lower()` (per-character lowercasing). -/
def pyLower (s : String) : String := ⟨s.data.map Char.toLower⟩

/-- Models Python `str.replace(a, b)` for single-character `a`, `b`:
every occurrence of the character `a` becomes `b`. -/
def replaceChar (s : String) (a b : Char) : String :=
  ⟨s.data.map (fun ch => if ch = a then b else ch)⟩

/-- Models Python `str.replace(a, "")` for a single-character `a`:
every occurrence of the character `a` is removed. -/
def dropChar (s : String) (a : Char) : String :=
  ⟨s.data.filter (fun ch => ch ≠ a)⟩

/-- Models Python `str.isalnum()`: non-empty and every character alphanumeric. -/
def pyIsAlnum (s : String) : Bool :=
  s ≠ "" && s.data.all Char.isAlphanum

/-- Models Python `str.strip()`: remove leading and trailing whitespace. -/
def pyStrip (s : String) : String :=
  ⟨((s.data.dropWhile Char.isWhitespace).reverse.dropWhile Char.isWhitespace).reverse⟩

/-- Python truthiness of an `Optional[str]` field: `None` and `""` are falsy. -/
def optStrTruthy : Option String → Bool
  | none => false
  | some s => s ≠ ""

/-- Decidable equality on `Except`, used to evaluate the model in witnesses. -/
instance {e a : Type} [DecidableEq e] [DecidableEq a] : DecidableEq (Except e a) := fun x y =>
  match x, y with
  | .ok u, .ok v =>
    if h : u = v then .isTrue (by rw [h]) else .isFalse (fun he => by cases he; exact h rfl)
  | .ok u, .error w => .isFalse (fun he => by cases he)
  | .error v, .ok u => .isFalse (fun he => by cases he)
  | .error v, .error w =>
    if h : v = w then .isTrue (by rw [h]) else .isFalse (fun he => by cases he; exact h rfl)

/-- `sanitize_for_filesystem` (utils/validation.py):
`name.lower().replace(" ", "_").replace("'", "")`. -/
def sanitize_for_filesystem (name : String) : String :=
  dropChar (replaceChar (pyLower name) ' ' '_') '\''

/-- `CharacterRole` enum (models/enums.py). -/
inductive CharacterRole
  | protagonist
  | love_interest
  | antagonist
  | supporting
  | background
deriving DecidableEq, Repr

/-- The `.value` string of a `CharacterRole`. -/
def CharacterRole.value : CharacterRole → String
  | .protagonist => "protagonist"
  | .love_interest => "love_interest"
  | .antagonist => "antagonist"
  | .supporting => "supporting"
  | .background => "background"

/-- `CharacterRole(s)` enum construction: `some` on a valid value string,
`none` models the raised `ValueError`. -/
def CharacterRole.fromString (s : String) : Option CharacterRole :=
  if s = "protagonist" then some .protagonist
  else if s = "love_interest" then some .love_interest
  else if s = "antagonist" then some .antagonist
  else if s = "supporting" then some .supporting
  else if s = "background" then some .background
  else none

/-- `RelationshipType` enum (models/enums.py). -/
inductive RelationshipType
  | family
  | friend
  | enemy
  | romantic
  | professional
  | acquaintance
deriving DecidableEq, Repr

/-- `CharacterBasics` (models/character.py).  Ages are kept as `Nat`
(the field is constrained to 0..500). -/
structure CharacterBasics where
  name : String
  age : Option Nat
  gender : Option String
  role : CharacterRole
deriving DecidableEq, Repr

/-- `HairDescription` (models/character.py). -/
structure HairDescription where
  color : Option String
  style : Option String
  length : Option String
deriving DecidableEq, Repr

/-- `EyeDescription` (models/character.py). -/
structure EyeDescription where
  color : Option String
  shape : Option String
deriving DecidableEq, Repr

/-- `CharacterAppearance` (models/character.py). -/
structure CharacterAppearance where
  hair : Option HairDescription
  eyes : Option EyeDescription
  skin_tone : Option String
  height : Option String
  build : Option String
  distinctive_features : List String
  clothing_style : Option String
  accessories : List String
deriving DecidableEq, Repr

/-- `CharacterPersonality` (models/character.py). -/
structure CharacterPersonality where
  primary_traits : List String
  secondary_traits : List String
  flaws : List String
  speaking_style : Option String
  speech_quirks : List String
  motivations : List String
  fears : List String
  secrets : List String
deriving DecidableEq, Repr

/-- `CharacterBackstory` (models/character.py). -/
structure CharacterBackstory where
  summary : String
  full : Option String
  key_events : List String
  secrets : List String
deriving DecidableEq, Repr

/-- `Relationship` (models/character.py). -/
structure Relationship where
  target_character : String
  type : RelationshipType
  dynamic : String
  initial_feeling : Option String
  history : Option String
  tension_points : List String
deriving DecidableEq, Repr

/-- `Character` (models/character.py).  Timestamps are modelled as `Nat` ticks. -/
structure Character where
  basics : CharacterBasics
  appearance : Option CharacterAppearance
  personality : Option CharacterPersonality
  backstory : Option CharacterBackstory
  relationships : List Relationship
  lora_trigger : Option String
  created_at : Nat
  updated_at : Nat
deriving DecidableEq, Repr

/-- `Character.get_completion_percentage`.  The Python expression
`int(sum(sections) / len(sections) * 100)` is exact for 0..5 of 5 sections
(each float product rounds to the integer), so integer arithmetic
`count * 100 / 5` computes the same value. -/
def Character.get_completion_percentage (c : Character) : Nat :=
  let sections : List Bool :=
    [true, c.appearance.isSome, c.personality.isSome, c.backstory.isSome,
     decide (c.relationships.length > 0)]
  (sections.countP id) * 100 / 5

/-- `Character.generate_lora_trigger` (models/character.py, lines 336-359).
Note the name part is `name.lower().replace(" ", "_")`, which keeps
apostrophes, unlike `sanitize_for_filesystem`. -/
def Character.generate_lora_trigger (c : Character) : String :=
  match c.appearance with
  | none => replaceChar (pyLower c.basics.name) ' ' '_'
  | some appearance =>
    let parts : List String := [replaceChar (pyLower c.basics.name) ' ' '_']
    let parts :=
      match appearance.hair with
      | none => parts
      | some hair =>
        let hair_parts : List String :=
          (match hair.color with
           | some col => if col ≠ "" then [col] else []
           | none => []) ++
          (match hair.style with
           | some st => if st ≠ "" then [st] else []
           | none => [])
        if hair_parts.isEmpty then parts
        else parts ++ [String.intercalate "_" hair_parts ++ "_hair"]
    let parts :=
      match appearance.eyes with
      | some eyes =>
        match eyes.color with
        | some col => if col ≠ "" then parts ++ [col ++ "_eyes"] else parts
        | none => parts
      | none => parts
    let parts := parts ++
      (appearance.distinctive_features.take 2).map
        (fun f => replaceChar (pyLower f) ' ' '_')
    String.intercalate ", " parts

/-- "Present" in the spec's wording, with Python truthiness: an optional string
field counts as present when it is set and non-empty. -/
def presentStr (o : Option String) : Option String :=
  match o with
  | some s => if s = "" then none else some s
  | none => none

/-- The trigger parts after the name, following the spec's words (§4.3): if hair
color and/or style is present, `"<color>_<style>_hair"` joining only the present
parts; if eye color is present, `"<color>_eyes"`; then up to the first two
distinctive features lowercased with spaces replaced by underscores. -/
def specTriggerTail (app : CharacterAppearance) : List String :=
  (match presentStr (app.hair.bind HairDescription.color),
         presentStr (app.hair.bind HairDescription.style) with
   | some col, some st => [col ++ "_" ++ st ++ "_hair"]
   | some col, none => [col ++ "_hair"]
   | none, some st => [st ++ "_hair"]
   | none, none => []) ++
  (match presentStr (app.eyes.bind EyeDescription.color) with
   | some col => [col ++ "_eyes"]
   | none => []) ++
  (app.distinctive_features.take 2).map (fun f => replaceChar (pyLower f) ' ' '_')

/-- The trigger exactly as claim C6 words it: the head part is the *sanitized*
name (`sanitize_for_filesystem`, which also strips apostrophes). -/
def loraTriggerClaimed (name : String) (app : CharacterAppearance) : String :=
  String.intercalate ", " (sanitize_for_filesystem name :: specTriggerTail app)

/-- The amended trigger: the head part is the name lowercased with spaces
replaced by underscores — apostrophes are kept, unlike `sanitize_for_filesystem`. -/
def loraTriggerAmended (name : String) (app : CharacterAppearance) : String :=
  String.intercalate ", " (replaceChar (pyLower name) ' ' '_' :: specTriggerTail app)

/-- An appearance record with no hair/eye/feature data. -/
def emptyAppearance : CharacterAppearance := ⟨none, none, none, none, none, [], none, []⟩

/-- A character whose (legal) name carries an apostrophe. -/
def obrien : Character :=
  { basics := ⟨"O'Brien", none, none, .supporting⟩, appearance := some emptyAppearance,
    personality := none, backstory := none, relationships := [], lora_trigger := none,
    created_at := 0, updated_at := 0 }

/-- C6 counterexample: for the character "O'Brien" with appearance present, the
generated trigger keeps the apostrophe (`"o'brien"`) while the claim's head,
built with `sanitize_for_filesystem`, drops it (`"obrien"`); the claimed
equation fails. -/
theorem lora_trigger_claim_counterexample :
    obrien.generate_lora_trigger = "o'brien" ∧
    loraTriggerClaimed "O'Brien" emptyAppearance = "obrien" ∧
    obrien.generate_lora_trigger ≠ loraTriggerClaimed "O'Brien" emptyAppearance := by
  refine ⟨rfl, rfl, ?_⟩
  decide

/-- When appearance is present, the generated trigger follows the spec's
pipeline with the name merely lowercased/underscored as head part. -/
lemma generate_trigger_spec (c : Character) (app : CharacterAppearance)
    (h : c.appearance = some app) :
    c.generate_lora_trigger = loraTriggerAmended c.basics.name app := by
  obtain ⟨basics, capp, pers, back, rels, lt, cca, cua⟩ := c
  cases h
  obtain ⟨hair, eyes, skin, ht, bld, feats, cloth, acc⟩ := app
  simp only [Character.generate_lora_trigger, loraTriggerAmended, specTriggerTail]
  rcases hair with _ | ⟨col, sty, len⟩ <;>
    rcases eyes with _ | ⟨ecol, eshape⟩ <;>
    first
    | (rcases col with _ | col <;> rcases sty with _ | sty <;>
       rcases ecol with _ | ecol <;>
       simp [presentStr] <;> split_ifs <;> simp_all [String.intercalate, String.intercalate.go])
    | (rcases col with _ | col <;> rcases sty with _ | sty <;>
       simp [presentStr] <;> split_ifs <;> simp_all [String.intercalate, String.intercalate.go])
    | (rcases ecol with _ | ecol <;>
       simp [presentStr] <;> split_ifs <;> simp_all [String.intercalate, String.intercalate.go])
    | (simp [presentStr])

/-- C6 amended: for every character with appearance present, the generated
trigger is the name lowercased with spaces underscored (apostrophes kept);
then, if hair color and/or style is present, `"<color>_<style>_hair"` joining
only the present parts; then `"<color>_eyes"` if eye color is present; then up
to the first two distinctive features lowercased and underscored; joined `", "`. -/
theorem generate_lora_trigger_amended (c : Character) (app : CharacterAppearance)
    (h : c.appearance = some app) :
    c.generate_lora_trigger = loraTriggerAmended c.basics.name app :=
  generate_trigger_spec c app h

/-- The "Alex Chen" appearance from the spec's example scenario. -/
def alexAppearance : CharacterAppearance :=
  { hair := some ⟨some "black", none, none⟩, eyes := some ⟨some "brown", none⟩,
    skin_tone := none, height := none, build := none, distinctive_features := [],
    clothing_style := none, accessories := [] }

/-- The "Alex Chen" character from the spec's example scenario. -/
def alexChen : Character :=
  { basics := ⟨"Alex Chen", none, none, .protagonist⟩, appearance := some alexAppearance,
    personality := none, backstory := none, relationships := [], lora_trigger := none,
    created_at := 0, updated_at := 0 }

/-- Witness for the amended C6 theorem at the spec's own example: "Alex Chen"
with black hair and brown eyes yields `"alex_chen, black_hair, brown_eyes"`. -/
theorem generate_lora_trigger_amended_witness :
    alexChen.generate_lora_trigger = "alex_chen, black_hair, brown_eyes" := by
  rw [generate_lora_trigger_amended alexChen alexAppearance rfl]
  rfl

/-- C7: `get_completion_percentage` always returns one of {0, 20, 40, 60, 80, 100},
and adding any one absent optional section (appearance, personality, backstory,
or a first relationship) while keeping the present ones fixed never decreases it. -/
theorem completion_range_and_monotone (c : Character) :
    c.get_completion_percentage ∈ ([0, 20, 40, 60, 80, 100] : List Nat) ∧
    (∀ a, c.appearance = none →
      c.get_completion_percentage ≤
        Character.get_completion_percentage { c with appearance := some a }) ∧
    (∀ p, c.personality = none →
      c.get_completion_percentage ≤
        Character.get_completion_percentage { c with personality := some p }) ∧
    (∀ b, c.backstory = none →
      c.get_completion_percentage ≤
        Character.get_completion_percentage { c with backstory := some b }) ∧
    (∀ r, c.relationships = [] →
      c.get_completion_percentage ≤
        Character.get_completion_percentage { c with relationships := [r] }) := by
  obtain ⟨bas, app, pers, back, rels, lt, ca, ua⟩ := c
  refine ⟨?_, ?_, ?_, ?_, ?_⟩
  · cases app <;> cases pers <;> cases back <;> cases rels <;>
      simp [Character.get_completion_percentage, List.countP, List.countP.go]
  · intro a h
    cases h
    cases pers <;> cases back <;> cases rels <;>
      simp [Character.get_completion_percentage, List.countP, List.countP.go]
  · intro p h
    cases h
    cases app <;> cases back <;> cases rels <;>
      simp [Character.get_completion_percentage, List.countP, List.countP.go]
  · intro b h
    cases h
    cases app <;> cases pers <;> cases rels <;>
      simp [Character.get_completion_percentage, List.countP, List.countP.go]
  · intro r h
    cases h
    cases app <;> cases pers <;> cases back <;>
      simp [Character.get_completion_percentage, List.countP, List.countP.go]

/-- A bare character used to evaluate the completion theorem. -/
def miaBare : Character :=
  { basics := ⟨"Mia", none, none, .supporting⟩, appearance := none, personality := none,
    backstory := none, relationships := [], lora_trigger := none,
    created_at := 0, updated_at := 0 }

/-- Witness for C7 at a concrete character: range membership, and adding an
appearance section does not decrease the completion percentage. -/
theorem completion_range_and_monotone_witness :
    miaBare.get_completion_percentage ∈ ([0, 20, 40, 60, 80, 100] : List Nat) ∧
    miaBare.get_completion_percentage ≤
      Character.get_completion_percentage { miaBare with appearance := some emptyAppearance } :=
  ⟨(completion_range_and_monotone miaBare).1,
   (completion_range_and_monotone miaBare).2.1 emptyAppearance rfl⟩

/-- `Project` (models/project.py).  `created_at` is a `Nat` tick. -/
structure Project where
  name : String
  genre : String
  synopsis : String
  created_at : Nat
deriving DecidableEq, Repr

/-- `Project.validate_project_name` field validator: strip, reject empty, then
check the stripped name is alphanumeric after removing spaces/hyphens/underscores;
returns the stripped name. -/
def validate_project_name (v : String) : Except String String :=
  let stripped := pyStrip v
  if stripped = "" then .error "Project name cannot be empty"
  else
    let test_str := dropChar (dropChar (dropChar stripped ' ') '-') '_'
    if ¬ pyIsAlnum test_str then
      .error "Project name can only contain letters, numbers, spaces, hyphens, and underscores"
    else .ok stripped

/-- `Project.validate_genre` field validator: strip, reject empty, lowercase. -/
def validate_genre_field (v : String) : Except String String :=
  let stripped := pyStrip v
  if stripped = "" then .error "Genre cannot be empty"
  else .ok (pyLower stripped)

/-- `Project.validate_synopsis` field validator: strip, reject empty. -/
def validate_synopsis_field (v : String) : Except String String :=
  let stripped := pyStrip v
  if stripped = "" then .error "Synopsis cannot be empty"
  else .ok stripped

/-- Constructing `Project(name, genre, synopsis)`: pydantic first checks the
Field length bounds on the raw values, then runs each field validator. -/
def Project.build (name genre synopsis : String) (now : Nat) : Except String Project :=
  if ¬ (1 ≤ name.length ∧ name.length ≤ 100) then .error "name length out of bounds"
  else if ¬ (1 ≤ genre.length ∧ genre.length ≤ 50) then .error "genre length out of bounds"
  else if ¬ (1 ≤ synopsis.length ∧ synopsis.length ≤ 2000) then .error "synopsis length out of bounds"
  else
    match validate_project_name name, validate_genre_field genre, validate_synopsis_field synopsis with
    | .ok n, .ok g, .ok s => .ok { name := n, genre := g, synopsis := s, created_at := now }
    | .error e, _, _ => .error e
    | _, .error e, _ => .error e
    | _, _, .error e => .error e

/-- State of the `story.json` record file inside a project directory. -/
inductive StoryJsonFile
  | absent
  | notAFile
  /-- present but raising `json.JSONDecodeError`; carries the exception text -/
  | badJson (detail : String)
  /-- present, JSON, but failing `Project` model validation; carries the text -/
  | badData (detail : String)
  | valid (p : Project)
deriving DecidableEq, Repr

/-- State of a directory entry (`story_data`, `story_data/characters`). -/
inductive DirEntry
  | absent
  | notADir
  | present
deriving DecidableEq, Repr

/-- The filesystem facts `ProjectService.validate_project`/`open_project` inspect
about one project path. -/
structure ProjectFs where
  rootExists : Bool
  rootIsDir : Bool
  storyJson : StoryJsonFile
  storyData : DirEntry
  charactersDir : DirEntry
deriving DecidableEq, Repr

/-- The `ProjectService.STORY_JSON` constant. -/
def STORY_JSON : String := "story.json"

/-- `ProjectService.validate_project`: accumulates error messages; returns
`(len(errors) == 0, errors)`.  Messages are the exact Python f-strings. -/
def validate_project (path : String) (fs : ProjectFs) : Bool × List String :=
  if ¬ fs.rootExists then (false, ["Project directory does not exist: " ++ path])
  else if ¬ fs.rootIsDir then (false, ["Path is not a directory: " ++ path])
  else
    let errs₁ : List String :=
      match fs.storyJson with
      | .absent => ["Missing story.json"]
      | .notAFile => ["story.json is not a file"]
      | .badJson d => ["Invalid JSON in story.json: " ++ d]
      | .badData d => ["Invalid project data in story.json: " ++ d]
      | .valid _ => []
    let errs₂ : List String :=
      match fs.storyData with
      | .absent => ["Missing story_data directory"]
      | .notADir => ["story_data is not a directory"]
      | .present =>
        match fs.charactersDir with
        | .absent => ["Missing story_data/characters directory"]
        | .notADir => ["story_data/characters is not a directory"]
        | .present => []
    let errors := errs₁ ++ errs₂
    (errors.isEmpty, errors)

/-- Python `needle in hay` substring test on strings. -/
def pyInStr (needle hay : String) : Bool :=
  (List.range (hay.data.length + 1)).any (fun i => needle.data.isPrefixOf (hay.data.drop i))

/-- Errors raised by `open_project`. -/
inductive OpenProjectError
  /-- `ProjectNotFoundError(path)` -/
  | notFound (path : String)
  /-- `ProjectValidationError(errors)` -/
  | validation (errors : List String)
  /-- an exception escaping the final read/parse (unreachable after validation) -/
  | readFailure
deriving DecidableEq, Repr

/-- `ProjectService.open_project`.  Mirrors line 162 of project_service.py
exactly: `STORY_JSON not in [e for e in errors if STORY_JSON in e]` is a *list
membership* test of the literal string "story.json" against the filtered
error messages (not a substring/any test). -/
def open_project (path : String) (fs : ProjectFs) : Except OpenProjectError Project :=
  let v := validate_project path fs
  if ¬ v.1 then
    if ¬ fs.rootExists || ¬ ((v.2.filter (fun e => pyInStr STORY_JSON e)).contains STORY_JSON) then
      .error (.notFound path)
    else
      .error (.validation v.2)
  else
    match fs.storyJson with
    | .valid p => .ok p
    | _ => .error .readFailure

/-- `ProjectService.create_project`: the parent directory is abstracted to
whether the sanitized target directory already exists.  On success the created
filesystem state is returned (root, `story_data`, `story_data/characters`,
`story.json` holding the validated record; the empty character index file is
created too but is not part of `ProjectFs`). -/
inductive CreateProjectError
  | projectExists (name : String)
  | validationError (msg : String)
deriving DecidableEq, Repr

/-- `ProjectService.create_project` (see `CreateProjectError`). -/
def create_project (name genre synopsis : String) (targetExists : Bool) (now : Nat) :
    Except CreateProjectError ProjectFs :=
  if targetExists then .error (.projectExists name)
  else
    match Project.build name genre synopsis now with
    | .error e => .error (.validationError e)
    | .ok p =>
      .ok { rootExists := true, rootIsDir := true, storyJson := .valid p,
            storyData := .present, charactersDir := .present }

/-- Appending cannot shrink a string below a length bound. -/
lemma ten_lt_length_append {a b : String} (h : 10 < a.length) : 10 < (a ++ b).length := by
  rw [String.length_append]
  omega

/-- Every message `validate_project` can emit is longer than `"story.json"`
(10 characters), hence never equals it. -/
lemma validate_errors_long (path : String) (fs : ProjectFs) :
    ∀ e ∈ (validate_project path fs).2, 10 < e.length := by
  intro e he
  rcases fs with ⟨re, rd, sj, sd, cd⟩
  cases re <;> cases rd <;> cases sj <;> cases sd <;> cases cd <;>
    simp only [validate_project] at he <;>
    simp at he <;>
    first
      | (rcases he with rfl | rfl)
      | (rcases he with rfl)
  all_goals first
    | decide
    | exact ten_lt_length_append (by decide)

/-- The membership test on line 162 of project_service.py is always false: it
asks whether the literal string "story.json" is an *element* of the filtered
error-message list, and no full message equals "story.json". -/
lemma contains_storyjson_false (path : String) (fs : ProjectFs) :
    ((validate_project path fs).2.filter (fun e => pyInStr STORY_JSON e)).contains STORY_JSON
      = false := by
  rw [List.contains_eq_any_beq, List.any_eq_false]
  intro x hx
  have hmem := List.mem_of_mem_filter hx
  have hlong := validate_errors_long path fs x hmem
  simp only [beq_iff_eq]
  intro h
  rw [← h] at hlong
  exact absurd hlong (by decide)

/-- A concrete valid project record. -/
def projP : Project := { name := "P", genre := "fantasy", synopsis := "S", created_at := 0 }

/-- Failing input for C3: root directory present, story.json present and valid,
but the story_data directory missing. -/
def fsMissingData : ProjectFs :=
  { rootExists := true, rootIsDir := true, storyJson := .valid projP,
    storyData := .absent, charactersDir := .absent }

/-- C3 [code_bug evidence]: (a) `open_project` can never raise
`ProjectValidationError` — line 162 tests list membership of the literal
"story.json" among full error messages, which always fails, so every invalid
project raises `ProjectNotFoundError`; (b) concretely, a project whose root and
story.json are present and valid but whose story_data directory is missing
validates to `(false, ["Missing story_data directory"])`, yet `open_project`
raises `ProjectNotFoundError` where its docstring and the spec promise
`ProjectValidationError` with that error list. -/
theorem open_project_validation_unreachable :
    (∀ path fs, (∃ p, open_project path fs = .ok p) ∨
      open_project path fs = .error (.notFound path) ∨
      open_project path fs = .error .readFailure) ∧
    validate_project "proj" fsMissingData = (false, ["Missing story_data directory"]) ∧
    open_project "proj" fsMissingData = .error (.notFound "proj") := by
  refine ⟨?_, rfl, rfl⟩
  intro path fs
  by_cases hv : (validate_project path fs).1
  · unfold open_project
    rw [if_neg (by simp [hv])]
    cases hsj : fs.storyJson <;> simp
  · unfold open_project
    rw [if_pos (by simp [hv])]
    rw [if_pos]
    · right; left; rfl
    · rw [contains_storyjson_false path fs]
      simp

/-- C8 counterexample: with the valid input genre " Fantasy", create-then-open
returns genre "fantasy" — the genre is trimmed *and* lowercased, not merely
lowercased as the claim words it. -/
theorem roundtrip_claim_counterexample :
    ∃ fs, create_project "Proj" " Fantasy" "S" false 0 = .ok fs ∧
      ∃ p, open_project "x" fs = .ok p ∧
        p.genre = "fantasy" ∧ pyLower " Fantasy" = " fantasy" ∧
        p.genre ≠ pyLower " Fantasy" := by
  refine ⟨{ rootExists := true, rootIsDir := true,
            storyJson := .valid ⟨"Proj", "fantasy", "S", 0⟩,
            storyData := .present, charactersDir := .present }, by rfl,
         ⟨"Proj", "fantasy", "S", 0⟩, by rfl, rfl, rfl, by decide⟩

/-- The name validator, when it accepts, returns the stripped input. -/
lemma validate_project_name_ok {v n : String} (h : validate_project_name v = .ok n) :
    n = pyStrip v := by
  simp only [validate_project_name] at h
  split_ifs at h <;> simp_all

/-- The genre validator, when it accepts, returns the stripped input lowercased. -/
lemma validate_genre_field_ok {v g : String} (h : validate_genre_field v = .ok g) :
    g = pyLower (pyStrip v) := by
  simp only [validate_genre_field] at h
  split_ifs at h <;> simp_all

/-- The synopsis validator, when it accepts, returns the stripped input. -/
lemma validate_synopsis_field_ok {v s : String} (h : validate_synopsis_field v = .ok s) :
    s = pyStrip v := by
  simp only [validate_synopsis_field] at h
  split_ifs at h <;> simp_all

/-- C8 amended: for every name/genre/synopsis triple accepted by validation
(i.e. `create_project` succeeds), opening the created project returns a record
whose name and synopsis are the trimmed inputs and whose genre is the trimmed,
lowercased input. -/
theorem create_then_open_roundtrip (name genre synopsis path : String) (now : Nat)
    (fs : ProjectFs)
    (hc : create_project name genre synopsis false now = .ok fs) :
    ∃ p, open_project path fs = .ok p ∧
      p.name = pyStrip name ∧ p.genre = pyLower (pyStrip genre) ∧
      p.synopsis = pyStrip synopsis ∧ p.created_at = now := by
  unfold create_project at hc
  rw [if_neg (by simp)] at hc
  cases hb : Project.build name genre synopsis now with
  | error e => rw [hb] at hc; exact absurd hc (by simp)
  | ok p =>
    rw [hb] at hc
    injection hc with hfs
    subst hfs
    refine ⟨p, ?_, ?_⟩
    · simp [open_project, validate_project]
    · unfold Project.build at hb
      split_ifs at hb
      split at hb
      all_goals try exact Except.noConfusion hb
      rename_i n g s hn hg hs
      have hp : p = { name := n, genre := g, synopsis := s, created_at := now } := by
        cases hb
        rfl
      rw [hp]
      exact ⟨validate_project_name_ok hn, validate_genre_field_ok hg,
        validate_synopsis_field_ok hs, rfl⟩

/-- Witness for the amended C8 theorem at a concrete triple: name " My Novel "
and genre " Fantasy " come back trimmed, the genre lowercased. -/
theorem create_then_open_roundtrip_witness :
    ∃ p, open_project "w"
        { rootExists := true, rootIsDir := true,
          storyJson := .valid ⟨"My Novel", "fantasy", "S", 3⟩,
          storyData := .present, charactersDir := .present } = .ok p ∧
      p.name = pyStrip " My Novel " ∧ p.genre = pyLower (pyStrip " Fantasy ") ∧
      p.synopsis = pyStrip "S" ∧ p.created_at = 3 :=
  create_then_open_roundtrip " My Novel " " Fantasy " "S" "w" 3 _ (by rfl)


/-- `CharacterIndexEntry` (models/character.py). -/
structure CharacterIndexEntry where
  name : String
  role : CharacterRole
  age : Option Nat
  path : String
  updated_at : Nat
deriving DecidableEq, Repr

/-- `CharacterIndex` (models/character.py). -/
structure CharacterIndex where
  characters : List CharacterIndexEntry
deriving DecidableEq, Repr

/-- `CharacterIndex.get_entry`: first entry whose name matches case-insensitively. -/
def CharacterIndex.get_entry (idx : CharacterIndex) (name : String) :
    Option CharacterIndexEntry :=
  idx.characters.find? (fun e => pyLower e.name == pyLower name)

/-- `CharacterIndex.add_entry`: remove every entry with the same
case-insensitive name, then append. -/
def CharacterIndex.add_entry (idx : CharacterIndex) (entry : CharacterIndexEntry) :
    CharacterIndex :=
  ⟨(idx.characters.filter (fun e => pyLower e.name != pyLower entry.name)) ++ [entry]⟩

/-- `CharacterIndex.remove_entry`: drop every entry with the matching
case-insensitive name (the Python bool return value is unused by the service). -/
def CharacterIndex.remove_entry (idx : CharacterIndex) (name : String) : CharacterIndex :=
  ⟨idx.characters.filter (fun e => pyLower e.name != pyLower name)⟩

/-- Contents of one subdirectory of `story_data/characters/`. -/
inductive DirContent
  /-- directory present but without a description.json file -/
  | noDesc
  /-- description.json present but not parseable as a Character -/
  | badDesc
  /-- description.json present and parsing to this record -/
  | desc (c : Character)
deriving DecidableEq, Repr

/-- The filesystem state a `CharacterService` works on: project/characters
directory existence flags, the index file (`none` = file absent; an unparsable
index file would raise out of every operation and is not needed by any claim),
and the character subdirectories keyed by directory name. -/
structure StoreFs where
  projectExists : Bool
  charactersDirExists : Bool
  indexFile : Option CharacterIndex
  dirs : List (String × DirContent)
deriving DecidableEq, Repr

/-- Errors raised by `CharacterService` operations. -/
inductive StoreError
  /-- `ProjectNotFoundError` (missing project root or characters directory) -/
  | projectNotFound
  /-- `CharacterExistsError(name)` -/
  | characterExists (name : String)
  /-- `CharacterNotFoundError(name)` -/
  | characterNotFound (name : String)
  /-- `RelationshipDependencyError(name, dependents)` -/
  | relationshipDependency (name : String) (dependents : List String)
  /-- a pydantic/JSON parse exception escaping the service -/
  | parseFailure
deriving DecidableEq, Repr

/-- `CharacterService._validate_project`: both directories must exist. -/
def validateStore (st : StoreFs) : Bool :=
  st.projectExists && st.charactersDirExists

/-- `CharacterService._load_index`: missing file yields an empty index. -/
def loadIndex (st : StoreFs) : CharacterIndex :=
  st.indexFile.getD ⟨[]⟩

/-- `CharacterService._save_index`. -/
def saveIndex (st : StoreFs) (idx : CharacterIndex) : StoreFs :=
  { st with indexFile := some idx }

/-- Directory lookup by name under `story_data/characters/`. -/
def lookupDir (st : StoreFs) (d : String) : Option DirContent :=
  st.dirs.lookup d

/-- Python `char_dir.exists()`. -/
def dirExists (st : StoreFs) (d : String) : Bool :=
  (lookupDir st d).isSome

/-- Python `(char_dir / "description.json").exists()`. -/
def descFileExists (st : StoreFs) (d : String) : Bool :=
  match lookupDir st d with
  | some .noDesc => false
  | some _ => true
  | none => false

/-- The parsed record stored at directory `d`, when present and parseable. -/
def recordAt (st : StoreFs) (d : String) : Option Character :=
  match lookupDir st d with
  | some (.desc c) => some c
  | _ => none

/-- Overwrite the description.json inside existing directory `d`. -/
def writeDesc (st : StoreFs) (d : String) (c : Character) : StoreFs :=
  { st with dirs := st.dirs.map (fun p => if p.1 = d then (d, .desc c) else p) }

/-- Index entry `path` field as the service writes it: `"characters/<dir>"`. -/
def mkEntryPath (d : String) : String := "characters/" ++ d

/-- Resolving an index entry path `"characters/<dir>"` back to the directory
key (the service appends `story_data/<path>/description.json`). -/
def entryPathDir (p : String) : String := ⟨p.data.drop 11⟩

/-- `CharacterService.get_character`: index lookup first (following the entry's
stored path), then direct lookup at the sanitized name, else
`CharacterNotFoundError`.  A file that exists but fails to parse raises. -/
def get_character (st : StoreFs) (name : String) : Except StoreError Character :=
  if ¬ validateStore st then .error .projectNotFound
  else
    let viaIndex : Option (Except StoreError Character) :=
      match (loadIndex st).get_entry name with
      | some entry =>
        match lookupDir st (entryPathDir entry.path) with
        | some (.desc c) => some (.ok c)
        | some .badDesc => some (.error .parseFailure)
        | _ => none
      | none => none
    match viaIndex with
    | some r => r
    | none =>
      match lookupDir st (sanitize_for_filesystem name) with
      | some (.desc c) => .ok c
      | some .badDesc => .error .parseFailure
      | _ => .error (.characterNotFound name)

/-- `CharacterService.create_character`.  Returns the created directory name
(`char_dir`) paired with the resulting filesystem state. -/
def create_character (st : StoreFs) (c : Character) (now : Nat) :
    Except StoreError String × StoreFs :=
  if ¬ validateStore st then (.error .projectNotFound, st)
  else
    let name := c.basics.name
    let d := sanitize_for_filesystem name
    if dirExists st d then (.error (.characterExists name), st)
    else
      let c₁ := { c with created_at := now, updated_at := now }
      let c₂ := if optStrTruthy c₁.lora_trigger then c₁
                else { c₁ with lora_trigger := some c₁.generate_lora_trigger }
      let st₁ := { st with dirs := st.dirs ++ [(d, .desc c₂)] }
      let entry : CharacterIndexEntry :=
        { name := name, role := c₂.basics.role, age := c₂.basics.age,
          path := mkEntryPath d, updated_at := now }
      (.ok d, saveIndex st₁ ((loadIndex st₁).add_entry entry))

/-- `CharacterService.update_character`: resolve the existing description file
(direct sanitized path first, then the index entry's path), stamp
`updated_at`, regenerate the trigger when appearance is present, overwrite the
file and upsert the index entry (whose path is always the sanitized name). -/
def update_character (st : StoreFs) (c : Character) (now : Nat) :
    Except StoreError Unit × StoreFs :=
  if ¬ validateStore st then (.error .projectNotFound, st)
  else
    let name := c.basics.name
    let d0 := sanitize_for_filesystem name
    let resolved : Option String :=
      if descFileExists st d0 then some d0
      else
        match (loadIndex st).get_entry name with
        | some entry =>
          if descFileExists st (entryPathDir entry.path) then some (entryPathDir entry.path)
          else none
        | none => none
    match resolved with
    | none => (.error (.characterNotFound name), st)
    | some d =>
      let c₁ := { c with updated_at := now }
      let c₂ := if c₁.appearance.isSome then
                  { c₁ with lora_trigger := some c₁.generate_lora_trigger }
                else c₁
      let st₁ := writeDesc st d c₂
      let entry : CharacterIndexEntry :=
        { name := name, role := c₂.basics.role, age := c₂.basics.age,
          path := mkEntryPath d0, updated_at := c₂.updated_at }
      (.ok (), saveIndex st₁ ((loadIndex st₁).add_entry entry))

/-- The entry loop of `CharacterService.get_relationship_dependencies`: skip
the character itself (case-insensitively), load each other character
(`CharacterNotFoundError` is caught and skipped; any other exception
propagates) and collect the names of entries whose record holds a relationship
targeting `name` case-insensitively. -/
def depsScan (st : StoreFs) (name : String) :
    List CharacterIndexEntry → Except StoreError (List String)
  | [] => .ok []
  | e :: rest =>
    if pyLower e.name == pyLower name then depsScan st name rest
    else
      match get_character st e.name with
      | .ok c =>
        match depsScan st name rest with
        | .ok tail =>
          if c.relationships.any (fun r => pyLower r.target_character == pyLower name)
          then .ok (e.name :: tail) else .ok tail
        | .error er => .error er
      | .error (.characterNotFound n) =>
        match depsScan st name rest with
        | .ok tail => .ok tail
        | .error er => .error er
      | .error er => .error er

/-- `CharacterService.get_relationship_dependencies`. -/
def get_relationship_dependencies (st : StoreFs) (name : String) :
    Except StoreError (List String) :=
  if ¬ validateStore st then .error .projectNotFound
  else depsScan st name (loadIndex st).characters

/-- The relationship filter applied to a dependent record during forced delete. -/
def removeRelsTo (c : Character) (name : String) : Character :=
  { c with relationships :=
      c.relationships.filter (fun r => pyLower r.target_character != pyLower name) }

/-- The `for dep_name in dependencies` loop of `delete_character` under
`force=True`: load each dependent, drop its relationships to `name`, persist it
via `update_character`; `CharacterNotFoundError` (from the load or the update)
is caught and skipped, other errors propagate. -/
def forceCleanup (name : String) (now : Nat) :
    List String → StoreFs → Except StoreError Unit × StoreFs
  | [], st => (.ok (), st)
  | dep :: rest, st =>
    match get_character st dep with
    | .ok c =>
      let r := update_character st (removeRelsTo c name) now
      match r.1 with
      | .ok _ => forceCleanup name now rest r.2
      | .error (.characterNotFound n) => forceCleanup name now rest r.2
      | .error er => (.error er, r.2)
    | .error (.characterNotFound n) => forceCleanup name now rest st
    | .error er => (.error er, st)

/-- `CharacterService.delete_character`: resolve the directory, compute the
dependency list, fail with `RelationshipDependencyError` when dependents exist
and `force` is off, otherwise (after the forced cleanup loop when needed)
remove the directory tree and the index entry, returning the dependents. -/
def delete_character (st : StoreFs) (name : String) (force : Bool) (now : Nat) :
    Except StoreError (List String) × StoreFs :=
  if ¬ validateStore st then (.error .projectNotFound, st)
  else
    let d0 := sanitize_for_filesystem name
    let resolved : Option String :=
      if dirExists st d0 then some d0
      else
        match (loadIndex st).get_entry name with
        | some entry =>
          if dirExists st (entryPathDir entry.path) then some (entryPathDir entry.path)
          else none
        | none => none
    match resolved with
    | none => (.error (.characterNotFound name), st)
    | some d =>
      match get_relationship_dependencies st name with
      | .error er => (.error er, st)
      | .ok dependencies =>
        if ¬ dependencies.isEmpty && ¬ force then
          (.error (.relationshipDependency name dependencies), st)
        else
          let cleaned :=
            if ¬ dependencies.isEmpty && force then forceCleanup name now dependencies st
            else (.ok (), st)
          match cleaned.1 with
          | .error er => (.error er, cleaned.2)
          | .ok _ =>
            let st₂ := { cleaned.2 with dirs := cleaned.2.dirs.filter (fun p => p.1 != d) }
            (.ok dependencies, saveIndex st₂ ((loadIndex st₂).remove_entry name))

/-- One row of the `list_characters` result. -/
structure CharacterSummary where
  name : String
  role : String
  age : Option Nat
  completion : Nat
deriving DecidableEq, Repr

/-- The entry loop of `CharacterService.list_characters`: apply the role filter
(an unknown or empty filter string filters nothing), then load the record for
the completion percentage — only `CharacterNotFoundError` is caught (yielding
completion 0); a parse failure propagates and aborts the listing. -/
def listGo (st : StoreFs) (role_filter : Option String) :
    List CharacterIndexEntry → Except StoreError (List CharacterSummary)
  | [] => .ok []
  | e :: rest =>
    let skip : Bool :=
      match role_filter with
      | some rf =>
        if rf = "" then false
        else
          match CharacterRole.fromString (pyLower rf) with
          | some fr => decide (e.role ≠ fr)
          | none => false
      | none => false
    if skip then listGo st role_filter rest
    else
      let completion : Except StoreError Nat :=
        match get_character st e.name with
        | .ok c => .ok c.get_completion_percentage
        | .error (.characterNotFound n) => .ok 0
        | .error er => .error er
      match completion with
      | .error er => .error er
      | .ok comp =>
        match listGo st role_filter rest with
        | .ok tail =>
          .ok ({ name := e.name, role := e.role.value, age := e.age,
                 completion := comp } :: tail)
        | .error er => .error er

/-- `CharacterService.list_characters`. -/
def list_characters (st : StoreFs) (role_filter : Option String) :
    Except StoreError (List CharacterSummary) :=
  if ¬ validateStore st then .error .projectNotFound
  else listGo st role_filter (loadIndex st).characters

/-- The directory scan of `rebuild_index`: skip directories without a
description.json, skip unparsable ones, upsert an entry for each parseable one. -/
def rebuildScan : List (String × DirContent) → CharacterIndex → CharacterIndex
  | [], idx => idx
  | (d, content) :: rest, idx =>
    match content with
    | .noDesc => rebuildScan rest idx
    | .badDesc => rebuildScan rest idx
    | .desc c =>
      rebuildScan rest (idx.add_entry
        { name := c.basics.name, role := c.basics.role, age := c.basics.age,
          path := mkEntryPath d, updated_at := c.updated_at })

/-- `CharacterService.rebuild_index`: reconstruct the index from scratch by
scanning every character subdirectory. -/
def rebuild_index (st : StoreFs) : Except StoreError Unit × StoreFs :=
  if ¬ validateStore st then (.error .projectNotFound, st)
  else (.ok (), saveIndex st (rebuildScan st.dirs ⟨[]⟩))

/-- The index invariant of claim C9: no two entries share a case-insensitive name. -/
def IndexNoDup (idx : CharacterIndex) : Prop :=
  (idx.characters.map (fun e => pyLower e.name)).Nodup

/-- `add_entry` preserves the case-insensitive uniqueness invariant: it first
removes every entry with the new entry's lowered name. -/
lemma add_entry_nodup (idx : CharacterIndex) (e : CharacterIndexEntry)
    (h : IndexNoDup idx) : IndexNoDup (idx.add_entry e) := by
  unfold IndexNoDup CharacterIndex.add_entry
  rw [List.map_append]
  refine List.Nodup.append ?_ (by simp) ?_
  · exact ((List.filter_sublist idx.characters).map _).nodup h
  · intro x hx hxe
    simp only [List.map_cons, List.map_nil, List.mem_singleton] at hxe
    obtain ⟨e', he', hfe⟩ := List.mem_map.mp hx
    rw [List.mem_filter] at he'
    subst hxe
    rw [hfe] at he'
    simpa using he'.2

/-- `remove_entry` preserves the invariant (it only filters). -/
lemma remove_entry_nodup (idx : CharacterIndex) (name : String)
    (h : IndexNoDup idx) : IndexNoDup (idx.remove_entry name) := by
  unfold IndexNoDup CharacterIndex.remove_entry
  exact ((List.filter_sublist idx.characters).map _).nodup h

/-- `update_character` preserves the invariant on the stored index. -/
lemma update_character_nodup (st : StoreFs) (c : Character) (now : Nat)
    (h : IndexNoDup (loadIndex st)) :
    IndexNoDup (loadIndex (update_character st c now).2) := by
  unfold update_character
  dsimp only
  split
  · exact h
  · split
    · exact h
    · exact add_entry_nodup _ _ h

/-- The forced-delete cleanup loop preserves the invariant. -/
lemma forceCleanup_nodup (name : String) (now : Nat) (deps : List String) (st : StoreFs)
    (h : IndexNoDup (loadIndex st)) :
    IndexNoDup (loadIndex (forceCleanup name now deps st).2) := by
  induction deps generalizing st with
  | nil => exact h
  | cons dep rest ih =>
    unfold forceCleanup
    dsimp only
    split
    · split
      · exact ih _ (update_character_nodup _ _ _ h)
      · exact ih _ (update_character_nodup _ _ _ h)
      · exact update_character_nodup _ _ _ h
    · exact ih _ h
    · exact h

/-- `rebuildScan` preserves the invariant at every step. -/
lemma rebuildScan_nodup (l : List (String × DirContent)) (idx : CharacterIndex)
    (h : IndexNoDup idx) : IndexNoDup (rebuildScan l idx) := by
  induction l generalizing idx with
  | nil => exact h
  | cons p rest ih =>
    obtain ⟨d, content⟩ := p
    cases content with
    | noDesc => exact ih _ h
    | badDesc => exact ih _ h
    | desc c => exact ih _ (add_entry_nodup _ _ h)

/-- C9: the character index never holds two entries with case-insensitively
equal names: the empty index satisfies the invariant, `add_entry` and
`remove_entry` preserve it, and therefore so does every store mutation
(`create_character`, `update_character`, `delete_character`, `rebuild_index`). -/
theorem index_nodup_invariant :
    IndexNoDup ⟨[]⟩ ∧
    (∀ idx e, IndexNoDup idx → IndexNoDup (idx.add_entry e)) ∧
    (∀ idx name, IndexNoDup idx → IndexNoDup (idx.remove_entry name)) ∧
    (∀ st c now, IndexNoDup (loadIndex st) →
      IndexNoDup (loadIndex (create_character st c now).2)) ∧
    (∀ st c now, IndexNoDup (loadIndex st) →
      IndexNoDup (loadIndex (update_character st c now).2)) ∧
    (∀ st name force now, IndexNoDup (loadIndex st) →
      IndexNoDup (loadIndex (delete_character st name force now).2)) ∧
    (∀ st, IndexNoDup (loadIndex st) → IndexNoDup (loadIndex (rebuild_index st).2)) := by
  refine ⟨by simp [IndexNoDup], add_entry_nodup, remove_entry_nodup, ?_, update_character_nodup, ?_, ?_⟩
  · intro st c now h
    unfold create_character
    dsimp only
    split
    · exact h
    · split
      · exact h
      · exact add_entry_nodup _ _ h
  · intro st name force now h
    unfold delete_character
    dsimp only
    split
    · exact h
    · split
      · exact h
      · split
        · exact h
        · split
          · exact h
          · split
            · split
              · exact forceCleanup_nodup _ _ _ _ h
              · exact h
            · refine remove_entry_nodup _ _ ?_
              split
              · exact forceCleanup_nodup _ _ _ _ h
              · exact h
  · intro st h
    unfold rebuild_index
    split
    · exact h
    · exact rebuildScan_nodup _ _ (by simp [IndexNoDup])

/-- Whether a directory entry holds a parseable record. -/
def isDesc : DirContent → Bool
  | .desc _ => true
  | _ => false

/-- The parseable records under the characters directory, in scan order. -/
def parsedRecords (dirs : List (String × DirContent)) : List Character :=
  dirs.filterMap (fun p => match p.2 with | .desc c => some c | _ => none)

/-- When no existing entry shares the new lowered name, `add_entry` is a plain
append. -/
lemma add_entry_append (idx : CharacterIndex) (e : CharacterIndexEntry)
    (h : ∀ x ∈ idx.characters, pyLower x.name ≠ pyLower e.name) :
    (idx.add_entry e).characters = idx.characters ++ [e] := by
  have hf : List.filter (fun x => pyLower x.name != pyLower e.name) idx.characters
      = idx.characters :=
    List.filter_eq_self.mpr (fun x hx => by simpa using h x hx)
  simp [CharacterIndex.add_entry, hf]

/-- Entry count of `rebuildScan` when the incoming and scanned lowered names
are jointly duplicate-free. -/
lemma rebuildScan_length (l : List (String × DirContent)) (idx : CharacterIndex)
    (hd : ((idx.characters.map (fun e => pyLower e.name)) ++
           ((parsedRecords l).map (fun c => pyLower c.basics.name))).Nodup) :
    (rebuildScan l idx).characters.length =
      idx.characters.length + (parsedRecords l).length := by
  induction l generalizing idx with
  | nil => simp [rebuildScan, parsedRecords]
  | cons p rest ih =>
    obtain ⟨d, content⟩ := p
    cases content with
    | noDesc =>
      rw [rebuildScan]
      have : parsedRecords ((d, DirContent.noDesc) :: rest) = parsedRecords rest := by
        simp [parsedRecords]
      rw [this] at hd ⊢
      exact ih idx hd
    | badDesc =>
      rw [rebuildScan]
      have : parsedRecords ((d, DirContent.badDesc) :: rest) = parsedRecords rest := by
        simp [parsedRecords]
      rw [this] at hd ⊢
      exact ih idx hd
    | desc c =>
      rw [rebuildScan]
      have hpr : parsedRecords ((d, DirContent.desc c) :: rest) = c :: parsedRecords rest := by
        simp [parsedRecords]
      rw [hpr] at hd
      simp only [List.map_cons] at hd
      have hfresh : ∀ x ∈ idx.characters, pyLower x.name ≠ pyLower c.basics.name := by
        intro x hx hcontra
        have hdisj := (List.nodup_append.mp hd).2.2
        exact hdisj (List.mem_map_of_mem _ hx) (by rw [hcontra]; exact List.mem_cons_self _ _)
      set entry : CharacterIndexEntry :=
        { name := c.basics.name, role := c.basics.role, age := c.basics.age,
          path := mkEntryPath d, updated_at := c.updated_at } with hentry
      have happ := add_entry_append idx entry (by simpa [hentry] using hfresh)
      have hd' : (((idx.add_entry entry).characters.map (fun e => pyLower e.name)) ++
          ((parsedRecords rest).map (fun cc => pyLower cc.basics.name))).Nodup := by
        rw [happ]
        simpa [List.append_assoc] using hd
      have := ih (idx.add_entry entry) hd'
      rw [this, happ, hpr]
      simp
      omega

/-- A minimal parseable record with the given name. -/
def mkChar (nm : String) : Character :=
  { basics := ⟨nm, none, none, .supporting⟩, appearance := none, personality := none,
    backstory := none, relationships := [], lora_trigger := none,
    created_at := 0, updated_at := 0 }

/-- A project holding two parseable records whose names differ only by case. -/
def dupNamesSt : StoreFs :=
  { projectExists := true, charactersDirExists := true, indexFile := some ⟨[]⟩,
    dirs := [("alex", .desc (mkChar "Alex")), ("alex2", .desc (mkChar "alex"))] }

/-- C5 counterexample: a characters directory with N = 2 valid record files
(named "Alex" and "alex") rebuilds to an index with a single entry, because
`add_entry` de-duplicates case-insensitively — not "exactly N entries". -/
theorem rebuild_index_claim_counterexample :
    dupNamesSt.dirs.countP (fun p => isDesc p.2) = 2 ∧
    (loadIndex (rebuild_index dupNamesSt).2).characters.length = 1 :=
  ⟨rfl, rfl⟩

/-- C5 amended: on a project whose parseable record files carry pairwise
case-insensitively distinct names, `rebuild_index` writes an index with exactly
one entry per parseable file, silently skipping unparsable directories and
directories without a description file. -/
theorem rebuild_index_count (st : StoreFs)
    (hok : validateStore st = true)
    (hnames : ((parsedRecords st.dirs).map (fun c => pyLower c.basics.name)).Nodup) :
    (loadIndex (rebuild_index st).2).characters.length = (parsedRecords st.dirs).length := by
  unfold rebuild_index
  rw [if_neg (by simp [hok])]
  show (rebuildScan st.dirs ⟨[]⟩).characters.length = _
  simpa using rebuildScan_length st.dirs ⟨[]⟩ (by simpa using hnames)

/-- A project with one parseable record, one unparsable one, one empty directory. -/
def mixedDirsSt : StoreFs :=
  { projectExists := true, charactersDirExists := true, indexFile := some ⟨[]⟩,
    dirs := [("ann", .desc (mkChar "Ann")), ("bad", .badDesc), ("empty", .noDesc)] }

/-- Witness for the amended C5 theorem on a concrete mixed directory. -/
theorem rebuild_index_count_witness :
    (loadIndex (rebuild_index mixedDirsSt).2).characters.length =
      (parsedRecords mixedDirsSt.dirs).length :=
  rebuild_index_count mixedDirsSt (by decide) (by decide)

/-- Lowercasing and space replacement preserve length. -/
lemma replaceChar_pyLower_length (s : String) :
    (replaceChar (pyLower s) ' ' '_').length = s.length := by
  obtain ⟨data⟩ := s
  show ((data.map Char.toLower).map (fun ch => if ch = ' ' then '_' else ch)).length
    = data.length
  simp

/-- A non-empty string has positive length. -/
lemma length_pos_of_ne_empty {s : String} (h : s ≠ "") : 0 < s.length := by
  obtain ⟨data⟩ := s
  cases data with
  | nil => exact absurd rfl h
  | cons a as => simp [String.length]

/-- A string of positive length is non-empty. -/
lemma ne_empty_of_length_pos {s : String} (h : 0 < s.length) : s ≠ "" := by
  intro he
  rw [he] at h
  exact absurd h (by decide)

/-- The lowercased/underscored form of a non-empty name is non-empty. -/
lemma replaceChar_pyLower_ne_empty {s : String} (h : s ≠ "") :
    replaceChar (pyLower s) ' ' '_' ≠ "" := by
  apply ne_empty_of_length_pos
  rw [replaceChar_pyLower_length]
  exact length_pos_of_ne_empty h

/-- The accumulator of `String.intercalate.go` only grows. -/
lemma intercalate_go_length (acc s : String) (l : List String) :
    acc.length ≤ (String.intercalate.go acc s l).length := by
  induction l generalizing acc with
  | nil => exact le_refl _
  | cons a as ih =>
    have h1 : acc.length ≤ (acc ++ s ++ a).length := by
      rw [String.length_append, String.length_append]
      omega
    have h2 : String.intercalate.go acc s (a :: as) =
        String.intercalate.go (acc ++ s ++ a) s as := rfl
    rw [h2]
    exact le_trans h1 (ih (acc ++ s ++ a))

/-- Joining a list whose head is non-empty yields a non-empty string. -/
lemma intercalate_cons_ne_empty {a : String} (s : String) (l : List String) (h : a ≠ "") :
    String.intercalate s (a :: l) ≠ "" := by
  apply ne_empty_of_length_pos
  have hgo : String.intercalate s (a :: l) = String.intercalate.go a s l := rfl
  rw [hgo]
  exact lt_of_lt_of_le (length_pos_of_ne_empty h) (intercalate_go_length a s l)

/-- `generate_lora_trigger` never returns the empty string when the character
name is non-empty. -/
lemma generate_lora_trigger_ne_empty {c : Character} (h : c.basics.name ≠ "") :
    c.generate_lora_trigger ≠ "" := by
  cases happ : c.appearance with
  | none =>
    unfold Character.generate_lora_trigger
    rw [happ]
    exact replaceChar_pyLower_ne_empty h
  | some app =>
    rw [generate_trigger_spec c app happ]
    unfold loraTriggerAmended
    exact intercalate_cons_ne_empty _ _ (replaceChar_pyLower_ne_empty h)

/-- Appending a fresh key to an association list makes it findable. -/
lemma lookup_append_single {l : List (String × DirContent)} {d : String} {v : DirContent}
    (h : l.lookup d = none) : (l ++ [(d, v)]).lookup d = some v := by
  induction l with
  | nil => simp [List.lookup]
  | cons p rest ih =>
    rw [List.cons_append]
    simp only [List.lookup] at h ⊢
    cases hbe : (d == p.1) with
    | true =>
      rw [hbe] at h
      simp at h
    | false =>
      rw [hbe] at h
      dsimp only at h ⊢
      exact ih h

/-- Characterizes names as stored after `CharacterBasics.validate_character_name`:
already stripped, non-empty, and alphanumeric after removing spaces, hyphens,
underscores and apostrophes. -/
def validatedCharName (name : String) : Bool :=
  pyStrip name == name && name != "" &&
    pyIsAlnum (dropChar (dropChar (dropChar (dropChar name ' ') '-') '_') '\'')

/-- A character with no appearance section but a caller-set trigger. -/
def customTagChar : Character :=
  { basics := ⟨"Bob", none, none, .supporting⟩, appearance := none, personality := none,
    backstory := none, relationships := [], lora_trigger := some "custom_tag",
    created_at := 0, updated_at := 0 }

/-- An empty, valid project state. -/
def freshProjectSt : StoreFs :=
  { projectExists := true, charactersDirExists := true, indexFile := some ⟨[]⟩, dirs := [] }

/-- C10 counterexample: creating a no-appearance character whose `lora_trigger`
was already set stores that trigger unchanged ("custom_tag"), not the name
lowercased/underscored ("bob") as the claim states for *every* character. -/
theorem create_trigger_claim_counterexample :
    (recordAt (create_character freshProjectSt customTagChar 1).2
        (sanitize_for_filesystem "Bob")).map (fun c => c.lora_trigger)
      = some (some "custom_tag") ∧
    some "custom_tag" ≠ some (replaceChar (pyLower "Bob") ' ' '_') :=
  ⟨rfl, by decide⟩

/-- C10 amended: after every successful `create_character`, the stored record
holds a non-empty `lora_trigger` (for every valid character name); when the
character has no appearance section AND its trigger was not already set
(`None`/empty), the stored trigger equals the name lowercased with spaces
replaced by underscores; a pre-set truthy trigger is stored unchanged. -/
theorem create_character_trigger (st : StoreFs) (c : Character) (now : Nat)
    (hname : validatedCharName c.basics.name = true)
    (hok : validateStore st = true)
    (hfresh : dirExists st (sanitize_for_filesystem c.basics.name) = false) :
    ∃ stored,
      recordAt (create_character st c now).2 (sanitize_for_filesystem c.basics.name)
        = some stored ∧
      ∃ t, stored.lora_trigger = some t ∧ t ≠ "" ∧
        (c.appearance = none → optStrTruthy c.lora_trigger = false →
          t = replaceChar (pyLower c.basics.name) ' ' '_') := by
  have hne : c.basics.name ≠ "" := by
    unfold validatedCharName at hname
    simp only [Bool.and_eq_true, bne_iff_ne, ne_eq] at hname
    exact hname.1.2
  unfold create_character
  rw [if_neg (by simp [hok])]
  try dsimp only
  rw [if_neg (by simp [hfresh])]
  try dsimp only
  have hlook : lookupDir st (sanitize_for_filesystem c.basics.name) = none := by
    unfold dirExists at hfresh
    exact Option.not_isSome_iff_eq_none.mp (by simp [hfresh])
  by_cases ht : optStrTruthy c.lora_trigger = true
  · refine ⟨{ c with created_at := now, updated_at := now }, ?_, ?_⟩
    · unfold recordAt lookupDir saveIndex
      try dsimp only
      rw [show (optStrTruthy ({ c with created_at := now, updated_at := now } : Character).lora_trigger) = true from ht]
      try dsimp only [if_true]
      rw [lookup_append_single hlook]
      simp
    · obtain ⟨s, hs⟩ : ∃ s, c.lora_trigger = some s := by
        cases hcl : c.lora_trigger with
        | none => rw [hcl] at ht; exact absurd ht (by simp [optStrTruthy])
        | some s => exact ⟨s, rfl⟩
      refine ⟨s, by simp [hs], ?_, ?_⟩
      · rw [hs] at ht
        simpa [optStrTruthy] using ht
      · intro _ hfalse
        rw [hfalse] at ht
        exact absurd ht (by simp)
  · have ht' : optStrTruthy c.lora_trigger = false := by simpa using ht
    refine ⟨{ basics := c.basics, appearance := c.appearance, personality := c.personality,
              backstory := c.backstory, relationships := c.relationships,
              lora_trigger := some (Character.generate_lora_trigger
                { c with created_at := now, updated_at := now }),
              created_at := now, updated_at := now }, ?_, ?_⟩
    · unfold recordAt lookupDir saveIndex
      try dsimp only
      rw [show (optStrTruthy ({ c with created_at := now, updated_at := now } : Character).lora_trigger) = false from ht']
      try dsimp only [Bool.false_eq_true, if_false]
      rw [lookup_append_single hlook]
      simp
    · refine ⟨Character.generate_lora_trigger { c with created_at := now, updated_at := now }, rfl, ?_, ?_⟩
      · exact generate_lora_trigger_ne_empty hne
      · intro happ _
        unfold Character.generate_lora_trigger
        rw [show ({ c with created_at := now, updated_at := now } : Character).appearance = none from happ]

/-- A plain character with no appearance and no pre-set trigger. -/
def miaLou : Character :=
  { basics := ⟨"Mia Lou", none, none, .supporting⟩, appearance := none, personality := none,
    backstory := none, relationships := [], lora_trigger := none,
    created_at := 0, updated_at := 0 }

/-- Witness for the amended C10 theorem: creating "Mia Lou" (no appearance, no
pre-set trigger) stores a non-empty trigger equal to "mia_lou". -/
theorem create_character_trigger_witness :
    ∃ stored,
      recordAt (create_character freshProjectSt miaLou 1).2
        (sanitize_for_filesystem miaLou.basics.name) = some stored ∧
      ∃ t, stored.lora_trigger = some t ∧ t ≠ "" ∧
        (miaLou.appearance = none → optStrTruthy miaLou.lora_trigger = false →
          t = replaceChar (pyLower miaLou.basics.name) ' ' '_') :=
  create_character_trigger freshProjectSt miaLou 1 (by decide) (by decide) (by decide)

/-- With the project directories present, `get_character` can only return a
record, a parse failure, or `CharacterNotFoundError` with the requested name. -/
lemma get_character_error_shape (st : StoreFs) (name : String) (er : StoreError)
    (hok : validateStore st = true) (h : get_character st name = .error er) :
    er = .parseFailure ∨ er = .characterNotFound name := by
  unfold get_character at h
  rw [if_neg (by simp [hok])] at h
  rcases hge : (loadIndex st).get_entry name with _ | entry <;>
    rw [hge] at h <;> try dsimp only at h
  case none =>
    rcases hlk : lookupDir st (sanitize_for_filesystem name) with _ | content <;>
      rw [hlk] at h
    · simp_all
    · cases content <;> simp_all
  case some =>
    rcases hlk : lookupDir st (entryPathDir entry.path) with _ | content <;>
      rw [hlk] at h
    · try dsimp only at h
      rcases hlk2 : lookupDir st (sanitize_for_filesystem name) with _ | content2 <;>
        rw [hlk2] at h
      · simp_all
      · cases content2 <;> simp_all
    · cases content with
      | noDesc =>
        try dsimp only at h
        rcases hlk2 : lookupDir st (sanitize_for_filesystem name) with _ | content2 <;>
          rw [hlk2] at h
        · simp_all
        · cases content2 <;> simp_all
      | badDesc => simp_all
      | desc c => simp_all

/-- The summary row `list_characters` builds for one index entry (completion 0
when the record cannot be loaded). -/
def summaryOf (st : StoreFs) (e : CharacterIndexEntry) : CharacterSummary :=
  { name := e.name, role := e.role.value, age := e.age,
    completion :=
      match get_character st e.name with
      | .ok c => c.get_completion_percentage
      | .error er => 0 }

/-- With no role filter and no unparsable record, the listing loop yields one
summary per entry. -/
lemma listGo_none (st : StoreFs) (l : List CharacterIndexEntry)
    (hok : validateStore st = true)
    (hno : ∀ e ∈ l, get_character st e.name ≠ .error .parseFailure) :
    listGo st none l = .ok (l.map (summaryOf st)) := by
  induction l with
  | nil => rfl
  | cons e rest ih =>
    have ihr := ih (fun x hx => hno x (List.mem_cons_of_mem e hx))
    rw [listGo]
    cases hge : get_character st e.name with
    | ok c => simp [hge, ihr, summaryOf]
    | error er =>
      rcases get_character_error_shape st e.name er hok hge with rfl | rfl
      · exact absurd hge (hno e (List.mem_cons_self e rest))
      · simp [hge, ihr, summaryOf]

/-- A Bob entry whose record file exists but is unparsable. -/
def bobEntry : CharacterIndexEntry :=
  { name := "Bob", role := .supporting, age := none, path := mkEntryPath "bob",
    updated_at := 0 }

/-- A project whose only character record is unparsable. -/
def badRecordSt : StoreFs :=
  { projectExists := true, charactersDirExists := true,
    indexFile := some ⟨[bobEntry]⟩, dirs := [("bob", .badDesc)] }

/-- C4 counterexample: when an index entry's record file exists but is
*unparsable*, `list_characters` does not fail open — only
`CharacterNotFoundError` is caught, so the parse failure aborts the whole
listing instead of producing a completion-0 row. -/
theorem list_characters_claim_counterexample :
    list_characters badRecordSt none = .error .parseFailure := rfl

/-- C4 amended: when every index entry's record file either loads or is
*absent* (no unparsable file), `list_characters` returns exactly one summary
row per index entry, and any entry whose record is absent gets completion 0;
an unparsable record file instead aborts the listing with the parse error. -/
theorem list_characters_fails_open (st : StoreFs)
    (hok : validateStore st = true)
    (hno : ∀ e ∈ (loadIndex st).characters,
      get_character st e.name ≠ .error .parseFailure) :
    list_characters st none = .ok ((loadIndex st).characters.map (summaryOf st)) ∧
    ∀ e ∈ (loadIndex st).characters,
      get_character st e.name = .error (.characterNotFound e.name) →
        (summaryOf st e).completion = 0 := by
  constructor
  · unfold list_characters
    rw [if_neg (by simp [hok])]
    exact listGo_none st (loadIndex st).characters hok hno
  · intro e he hge
    simp [summaryOf, hge]

/-- An Ann entry with a real record. -/
def annEntry : CharacterIndexEntry :=
  { name := "Ann", role := .supporting, age := none, path := mkEntryPath "ann",
    updated_at := 0 }

/-- A Ghost entry whose record file is absent. -/
def ghostEntry : CharacterIndexEntry :=
  { name := "Ghost", role := .background, age := none, path := mkEntryPath "ghost",
    updated_at := 0 }

/-- A project with one readable record and one absent one. -/
def absentRecordSt : StoreFs :=
  { projectExists := true, charactersDirExists := true,
    indexFile := some ⟨[annEntry, ghostEntry]⟩,
    dirs := [("ann", .desc (mkChar "Ann"))] }

/-- Witness for the amended C4 theorem: listing succeeds with one row per
entry; the absent "Ghost" record yields completion 0. -/
theorem list_characters_fails_open_witness :
    (list_characters absentRecordSt none
      = .ok ((loadIndex absentRecordSt).characters.map (summaryOf absentRecordSt)) ∧
    ∀ e ∈ (loadIndex absentRecordSt).characters,
      get_character absentRecordSt e.name = .error (.characterNotFound e.name) →
        (summaryOf absentRecordSt e).completion = 0) ∧
    (summaryOf absentRecordSt ghostEntry).completion = 0 :=
  ⟨list_characters_fails_open absentRecordSt (by decide) (by decide),
   (list_characters_fails_open absentRecordSt (by decide) (by decide)).2 ghostEntry
     (by decide) (by decide)⟩

/-- Witness for C9: the empty index satisfies the invariant and a concrete
`add_entry` then `remove_entry` preserve it. -/
theorem index_nodup_invariant_witness :
    IndexNoDup ((CharacterIndex.add_entry ⟨[]⟩ annEntry).remove_entry "Ann") :=
  index_nodup_invariant.2.2.1 (CharacterIndex.add_entry ⟨[]⟩ annEntry) "Ann"
    (index_nodup_invariant.2.1 ⟨[]⟩ annEntry index_nodup_invariant.1)

/-- Store-state consistency, true of every store-reachable project: the project
directories exist, directory keys are unique, index entry names are
case-insensitively unique, and every index entry points at
`characters/<sanitized name>`, which holds a parseable record whose name equals
the entry's name. -/
def Consistent (st : StoreFs) : Prop :=
  validateStore st = true ∧
  (st.dirs.map Prod.fst).Nodup ∧
  IndexNoDup (loadIndex st) ∧
  ∀ e ∈ (loadIndex st).characters,
    e.path = mkEntryPath (sanitize_for_filesystem e.name) ∧
    (recordAt st (sanitize_for_filesystem e.name)).map (fun c => c.basics.name)
      = some e.name

/-- Entry paths resolve back to their directory key. -/
lemma entryPathDir_mkEntryPath (d : String) : entryPathDir (mkEntryPath d) = d := by
  obtain ⟨data⟩ := d
  show String.mk (List.drop 11 ("characters/".data ++ data)) = String.mk data
  congr 1

/-- In a list with case-insensitively unique names, the first lowered-name
match for a member is the member itself. -/
lemma find_first_of_nodup {l : List CharacterIndexEntry} {e : CharacterIndexEntry}
    (hnd : (l.map (fun x => pyLower x.name)).Nodup) (he : e ∈ l) :
    l.find? (fun x => pyLower x.name == pyLower e.name) = some e := by
  induction l with
  | nil => cases he
  | cons a rest ih =>
    rcases List.mem_cons.mp he with rfl | hmem
    · exact List.find?_cons_of_pos _ (by simp)
    · simp only [List.map_cons, List.nodup_cons] at hnd
      have hne : (pyLower a.name == pyLower e.name) = false := by
        refine beq_eq_false_iff_ne.mpr ?_
        intro hcontra
        exact hnd.1 (hcontra ▸ List.mem_map_of_mem _ hmem)
      rw [List.find?_cons_of_neg _ (by simp [hne])]
      exact ih hnd.2 hmem

/-- `get_entry` finds exactly the member entry under the uniqueness invariant. -/
lemma get_entry_of_mem {idx : CharacterIndex} {e : CharacterIndexEntry}
    (hnd : IndexNoDup idx) (he : e ∈ idx.characters) :
    idx.get_entry e.name = some e :=
  find_first_of_nodup hnd he

/-- Unpacking `recordAt` to the underlying directory lookup. -/
lemma recordAt_eq_some {st : StoreFs} {d : String} {c : Character}
    (h : recordAt st d = some c) : lookupDir st d = some (.desc c) := by
  unfold recordAt at h
  split at h <;> simp_all

/-- Under consistency, loading a listed character succeeds and returns the
record stored at its sanitized directory. -/
lemma get_character_of_consistent {st : StoreFs} (hco : Consistent st)
    {e : CharacterIndexEntry} (he : e ∈ (loadIndex st).characters) :
    ∃ c, recordAt st (sanitize_for_filesystem e.name) = some c ∧
      c.basics.name = e.name ∧ get_character st e.name = .ok c := by
  obtain ⟨hok, hkeys, hnd, hent⟩ := hco
  obtain ⟨hpath, hrec⟩ := hent e he
  obtain ⟨c, hc, hcname⟩ :
      ∃ c, recordAt st (sanitize_for_filesystem e.name) = some c ∧
        c.basics.name = e.name := by
    cases hra : recordAt st (sanitize_for_filesystem e.name) with
    | none => rw [hra] at hrec; cases hrec
    | some c => rw [hra] at hrec; exact ⟨c, rfl, by simpa using hrec⟩
  refine ⟨c, hc, hcname, ?_⟩
  unfold get_character
  rw [if_neg (by simp [hok])]
  rw [show (loadIndex st).get_entry e.name = some e from get_entry_of_mem hnd he]
  dsimp only
  rw [hpath, entryPathDir_mkEntryPath, recordAt_eq_some hc]

/-- Under consistency, entries with different lowered names live in different
directories (the one stored record names at most one of them). -/
lemma sanitize_inj_on_entries {st : StoreFs} (hco : Consistent st)
    {e₁ e₂ : CharacterIndexEntry}
    (h₁ : e₁ ∈ (loadIndex st).characters) (h₂ : e₂ ∈ (loadIndex st).characters)
    (hne : pyLower e₁.name ≠ pyLower e₂.name) :
    sanitize_for_filesystem e₁.name ≠ sanitize_for_filesystem e₂.name := by
  intro hsan
  obtain ⟨hok, hkeys, hnd, hent⟩ := hco
  obtain ⟨_, hrec₁⟩ := hent e₁ h₁
  obtain ⟨_, hrec₂⟩ := hent e₂ h₂
  rw [hsan] at hrec₁
  have hsome : (some e₁.name : Option String) = some e₂.name := by rw [← hrec₁, hrec₂]
  apply hne
  injection hsome with hname
  rw [hname]

/-- The condition making an index entry a dependent of `name`: a different
character (case-insensitively) whose stored record targets `name`. -/
def refersTo (st : StoreFs) (name : String) (e : CharacterIndexEntry) : Bool :=
  pyLower e.name != pyLower name &&
  (match recordAt st (sanitize_for_filesystem e.name) with
   | some c => c.relationships.any (fun r => pyLower r.target_character == pyLower name)
   | none => false)

/-- The referencing characters of `name`, read directly off the state. -/
def referencingNames (st : StoreFs) (name : String) : List String :=
  ((loadIndex st).characters.filter (refersTo st name)).map (fun e => e.name)

/-- Under consistency, the dependency scan succeeds and returns exactly the
names of the entries that refer to `name`, in index order. -/
lemma depsScan_eq (st : StoreFs) (name : String) (hco : Consistent st)
    (l : List CharacterIndexEntry) (hsub : ∀ e ∈ l, e ∈ (loadIndex st).characters) :
    depsScan st name l = .ok ((l.filter (refersTo st name)).map (fun e => e.name)) := by
  induction l with
  | nil => rfl
  | cons e rest ih =>
    have ihr := ih (fun x hx => hsub x (List.mem_cons_of_mem e hx))
    have hmem := hsub e (List.mem_cons_self e rest)
    rw [depsScan, List.filter_cons]
    by_cases hskip : (pyLower e.name == pyLower name) = true
    · rw [if_pos hskip, ihr]
      rw [show refersTo st name e = false by
        unfold refersTo
        simp only [bne, hskip, Bool.not_true, Bool.false_and]]
      simp
    · obtain ⟨c, hc, hcname, hget⟩ := get_character_of_consistent hco hmem
      have hbeq : (pyLower e.name == pyLower name) = false := by
        simpa using hskip
      rw [if_neg hskip, hget, ihr]
      rw [show refersTo st name e =
            c.relationships.any (fun r => pyLower r.target_character == pyLower name) by
          unfold refersTo
          rw [hc]
          simp only [bne, hbeq, Bool.not_false, Bool.true_and]]
      by_cases hrel :
          (c.relationships.any (fun r => pyLower r.target_character == pyLower name)) = true
      · rw [hrel]
        simp
        simpa using hrel
      · rw [Bool.eq_false_iff.mpr hrel]
        simp
        simpa using hrel

/-- Under consistency, `get_relationship_dependencies` succeeds and returns
exactly the referencing names. -/
lemma deps_eq_referencing (st : StoreFs) (name : String) (hco : Consistent st) :
    get_relationship_dependencies st name = .ok (referencingNames st name) := by
  unfold get_relationship_dependencies referencingNames
  rw [if_neg (by simp [hco.1])]
  exact depsScan_eq st name hco _ (fun e he => he)

/-- C2: for every consistent project and existing character referenced by at
least one other character, `delete_character(name, force=false)` fails with
`RelationshipDependencyError` carrying exactly the referencing characters'
names, and every file and directory of the project is left unchanged. -/
theorem delete_without_force_blocked (st : StoreFs) (name : String) (now : Nat)
    (hco : Consistent st)
    (hmem : ∃ e ∈ (loadIndex st).characters, e.name = name)
    (hdeps : referencingNames st name ≠ []) :
    (delete_character st name false now).1
      = .error (.relationshipDependency name (referencingNames st name)) ∧
    (delete_character st name false now).2 = st := by
  obtain ⟨e, he, hename⟩ := hmem
  obtain ⟨c, hc, hcname, hget⟩ := get_character_of_consistent hco he
  have hdir : dirExists st (sanitize_for_filesystem name) = true := by
    rw [← hename]
    unfold dirExists
    rw [recordAt_eq_some hc]
    rfl
  have hie : (referencingNames st name).isEmpty = false := by
    cases hrn : referencingNames st name with
    | nil => exact absurd hrn hdeps
    | cons a l => rfl
  unfold delete_character
  rw [if_neg (by simp [hco.1])]
  try dsimp only
  rw [hdir, deps_eq_referencing st name hco]
  simp [hie]

/-- Bob's relationship to Alice, used in delete witnesses. -/
def relToAlice : Relationship :=
  { target_character := "Alice", type := .friend, dynamic := "pals",
    initial_feeling := none, history := none, tension_points := [] }

/-- Alice: a plain record. -/
def aliceChar : Character := mkChar "Alice"

/-- Bob: a record holding one relationship targeting Alice. -/
def bobChar : Character :=
  { mkChar "Bob" with relationships := [relToAlice] }

/-- Alice's index entry. -/
def aliceEntry : CharacterIndexEntry :=
  { name := "Alice", role := .supporting, age := none,
    path := mkEntryPath "alice", updated_at := 0 }

/-- Bob's index entry. -/
def bobRefEntry : CharacterIndexEntry :=
  { name := "Bob", role := .supporting, age := none,
    path := mkEntryPath "bob", updated_at := 0 }

/-- A consistent two-character project in which Bob references Alice. -/
def twoCharSt : StoreFs :=
  { projectExists := true, charactersDirExists := true,
    indexFile := some ⟨[aliceEntry, bobRefEntry]⟩,
    dirs := [("alice", .desc aliceChar), ("bob", .desc bobChar)] }

/-- Witness for C2: deleting Alice without force on the concrete two-character
project raises the dependency error naming Bob and changes nothing. -/
theorem delete_without_force_blocked_witness :
    (delete_character twoCharSt "Alice" false 1).1
      = .error (.relationshipDependency "Alice" (referencingNames twoCharSt "Alice")) ∧
    (delete_character twoCharSt "Alice" false 1).2 = twoCharSt :=
  delete_without_force_blocked twoCharSt "Alice" 1
    (by unfold Consistent IndexNoDup; decide) (by decide) (by decide)

/-- The record as `update_character` writes it: `updated_at` stamped, trigger
regenerated when appearance is present. -/
def postRecord (c : Character) (now : Nat) : Character :=
  let c₁ : Character := { c with updated_at := now }
  if c₁.appearance.isSome then { c₁ with lora_trigger := some c₁.generate_lora_trigger }
  else c₁

/-- `postRecord` does not touch the basics. -/
lemma postRecord_basics (c : Character) (now : Nat) :
    (postRecord c now).basics = c.basics := by
  unfold postRecord
  dsimp only
  split <;> rfl

/-- `postRecord` does not touch the relationships. -/
lemma postRecord_relationships (c : Character) (now : Nat) :
    (postRecord c now).relationships = c.relationships := by
  unfold postRecord
  dsimp only
  split <;> rfl

/-- Overwriting a description file keeps the directory keys. -/
lemma writeDesc_keys (st : StoreFs) (d : String) (c : Character) :
    (writeDesc st d c).dirs.map Prod.fst = st.dirs.map Prod.fst := by
  unfold writeDesc
  rw [List.map_map]
  apply List.map_congr_left
  intro p hp
  by_cases h : p.1 = d
  · simp [h]
  · simp [h]

/-- Rewriting one key of an association list leaves other lookups unchanged. -/
lemma lookup_map_write_ne {l : List (String × DirContent)} {d d' : String}
    (c : Character) (h : d' ≠ d) :
    (l.map (fun p => if p.1 = d then (d, DirContent.desc c) else p)).lookup d'
      = l.lookup d' := by
  induction l with
  | nil => rfl
  | cons p rest ih =>
    rw [List.map_cons]
    by_cases hp : p.1 = d
    · rw [if_pos hp]
      simp only [List.lookup]
      rw [show (d' == (d, DirContent.desc c).1) = false from beq_eq_false_iff_ne.mpr h,
          show (d' == p.1) = false from beq_eq_false_iff_ne.mpr (by rw [hp]; exact h)]
      exact ih
    · rw [if_neg hp]
      simp only [List.lookup]
      cases hbe : (d' == p.1) with
      | true => rfl
      | false =>
        dsimp only
        exact ih

/-- Rewriting an existing key of an association list is then looked up. -/
lemma lookup_map_write_self {l : List (String × DirContent)} {d : String}
    (c : Character) (h : (l.lookup d).isSome) :
    (l.map (fun p => if p.1 = d then (d, DirContent.desc c) else p)).lookup d
      = some (DirContent.desc c) := by
  induction l with
  | nil => simp [List.lookup] at h
  | cons p rest ih =>
    rw [List.map_cons]
    by_cases hp : p.1 = d
    · rw [if_pos hp]
      simp only [List.lookup]
      rw [show (d == (d, DirContent.desc c).1) = true from by simp]
    · rw [if_neg hp]
      simp only [List.lookup] at h ⊢
      have hbe : (d == p.1) = false := beq_eq_false_iff_ne.mpr (fun he => hp he.symm)
      rw [hbe] at h ⊢
      dsimp only at h ⊢
      exact ih h

/-- `writeDesc` leaves other directories unchanged. -/
lemma lookupDir_writeDesc_ne (st : StoreFs) {d d' : String} (c : Character) (h : d' ≠ d) :
    lookupDir (writeDesc st d c) d' = lookupDir st d' :=
  lookup_map_write_ne c h

/-- `writeDesc` into an existing directory stores the record. -/
lemma lookupDir_writeDesc_self (st : StoreFs) {d : String} (c : Character)
    (h : (lookupDir st d).isSome) :
    lookupDir (writeDesc st d c) d = some (.desc c) :=
  lookup_map_write_self c h

/-- The equation `update_character` satisfies when the direct description file
exists: write the post record there, upsert the entry. -/
lemma update_character_spec (st : StoreFs) (c : Character) (now : Nat)
    (hok : validateStore st = true)
    (hfile : descFileExists st (sanitize_for_filesystem c.basics.name) = true) :
    update_character st c now =
      (.ok (), saveIndex
        (writeDesc st (sanitize_for_filesystem c.basics.name) (postRecord c now))
        ((loadIndex st).add_entry
          { name := c.basics.name, role := (postRecord c now).basics.role,
            age := (postRecord c now).basics.age,
            path := mkEntryPath (sanitize_for_filesystem c.basics.name),
            updated_at := (postRecord c now).updated_at })) := by
  unfold update_character
  rw [if_neg (by simp [hok])]
  try dsimp only
  rw [hfile]
  rfl

/-- `writeDesc` at another key does not change a record. -/
lemma recordAt_writeDesc_ne (st : StoreFs) {d d' : String} (c : Character) (h : d' ≠ d) :
    recordAt (writeDesc st d c) d' = recordAt st d' := by
  unfold recordAt
  rw [lookupDir_writeDesc_ne st c h]

/-- One dependent update during the forced delete: it succeeds, keeps the state
consistent, touches only the dependent's directory (where it stores the post
record), and preserves the set of index entry names. -/
lemma update_dep_step (st : StoreFs) (hco : Consistent st)
    (e : CharacterIndexEntry) (he : e ∈ (loadIndex st).characters)
    (c : Character) (hcn : c.basics.name = e.name) (now : Nat) :
    (update_character st c now).1 = .ok () ∧
    Consistent (update_character st c now).2 ∧
    (∀ d', d' ≠ sanitize_for_filesystem e.name →
      lookupDir (update_character st c now).2 d' = lookupDir st d') ∧
    recordAt (update_character st c now).2 (sanitize_for_filesystem e.name)
      = some (postRecord c now) ∧
    (∀ n, (∃ x ∈ (loadIndex st).characters, x.name = n) →
      ∃ x ∈ (loadIndex (update_character st c now).2).characters, x.name = n) := by
  obtain ⟨c₀, hc₀, hc₀name, hget₀⟩ := get_character_of_consistent hco he
  have hsome : (lookupDir st (sanitize_for_filesystem e.name)).isSome := by
    rw [recordAt_eq_some hc₀]
    rfl
  have hfile : descFileExists st (sanitize_for_filesystem c.basics.name) = true := by
    rw [hcn]
    unfold descFileExists
    rw [recordAt_eq_some hc₀]
  have hspec := update_character_spec st c now hco.1 hfile
  rw [hspec]
  set entryU : CharacterIndexEntry :=
    { name := c.basics.name, role := (postRecord c now).basics.role,
      age := (postRecord c now).basics.age,
      path := mkEntryPath (sanitize_for_filesystem c.basics.name),
      updated_at := (postRecord c now).updated_at } with hentryU
  have hUname : entryU.name = c.basics.name := rfl
  refine ⟨rfl, ?_, ?_, ?_, ?_⟩
  · refine ⟨hco.1, ?_, ?_, ?_⟩
    · show ((writeDesc st (sanitize_for_filesystem c.basics.name)
          (postRecord c now)).dirs.map Prod.fst).Nodup
      rw [writeDesc_keys]
      exact hco.2.1
    · exact add_entry_nodup _ _ hco.2.2.1
    · intro x hx
      have hx' : x ∈ ((loadIndex st).characters.filter
            (fun y => pyLower y.name != pyLower entryU.name)) ++ [entryU] := hx
      rw [List.mem_append] at hx'
      rcases hx' with hxf | hxe
      · have hxold : x ∈ (loadIndex st).characters := List.mem_of_mem_filter hxf
        have hxne : pyLower x.name ≠ pyLower e.name := by
          have hcond := List.of_mem_filter hxf
          rw [← hcn]
          simpa [hUname] using hcond
        obtain ⟨hpath, hrec⟩ := hco.2.2.2 x hxold
        refine ⟨hpath, ?_⟩
        have hsan : sanitize_for_filesystem x.name ≠ sanitize_for_filesystem e.name :=
          sanitize_inj_on_entries hco hxold he hxne
        show ((recordAt (writeDesc st (sanitize_for_filesystem c.basics.name)
            (postRecord c now)) (sanitize_for_filesystem x.name)).map
              (fun cc => cc.basics.name)) = some x.name
        rw [show sanitize_for_filesystem c.basics.name
            = sanitize_for_filesystem e.name from by rw [hcn]]
        rw [recordAt_writeDesc_ne st (postRecord c now) hsan]
        exact hrec
      · rw [List.mem_singleton] at hxe
        subst hxe
        refine ⟨rfl, ?_⟩
        show ((recordAt (writeDesc st (sanitize_for_filesystem c.basics.name)
            (postRecord c now)) (sanitize_for_filesystem entryU.name)).map
              (fun cc => cc.basics.name)) = some entryU.name
        rw [hUname]
        unfold recordAt
        rw [lookupDir_writeDesc_self st (postRecord c now) (by rw [hcn]; exact hsome)]
        simp [postRecord_basics]
  · intro d' hne
    show lookupDir (writeDesc st (sanitize_for_filesystem c.basics.name)
        (postRecord c now)) d' = lookupDir st d'
    exact lookupDir_writeDesc_ne st (postRecord c now) (by rw [hcn]; exact hne)
  · show recordAt (writeDesc st (sanitize_for_filesystem c.basics.name)
        (postRecord c now)) (sanitize_for_filesystem e.name) = some (postRecord c now)
    unfold recordAt
    rw [show sanitize_for_filesystem e.name
        = sanitize_for_filesystem c.basics.name from by rw [hcn]]
    rw [lookupDir_writeDesc_self st (postRecord c now) (by rw [hcn]; exact hsome)]
  · intro n hn
    obtain ⟨x, hxmem, hxn⟩ := hn
    by_cases hl : pyLower n = pyLower e.name
    · refine ⟨entryU, ?_, ?_⟩
      · show entryU ∈ ((loadIndex st).characters.filter
            (fun y => pyLower y.name != pyLower entryU.name)) ++ [entryU]
        exact List.mem_append_right _ (List.mem_singleton.mpr rfl)
      · have hxe : x = e := by
          have hnd : ((loadIndex st).characters.map (fun y => pyLower y.name)).Nodup :=
            hco.2.2.1
          exact List.inj_on_of_nodup_map hnd hxmem he (by rw [hxn]; exact hl)
        show c.basics.name = n
        rw [hcn, ← hxn, hxe]
    · refine ⟨x, ?_, hxn⟩
      show x ∈ ((loadIndex st).characters.filter
          (fun y => pyLower y.name != pyLower entryU.name)) ++ [entryU]
      apply List.mem_append_left
      apply List.mem_filter.mpr
      refine ⟨hxmem, ?_⟩
      simp only [hUname, bne_iff_ne, ne_eq]
      rw [hcn, hxn]
      exact hl

/-- Equal lookups give equal records. -/
lemma recordAt_eq_of_lookup_eq {st st' : StoreFs} {d : String}
    (h : lookupDir st' d = lookupDir st d) : recordAt st' d = recordAt st d := by
  unfold recordAt
  rw [h]

/-- The forced-delete cleanup loop, on a consistent state and a list of
case-insensitively distinct dependent names (all existing in the index and
different from the deleted name): it succeeds, preserves consistency, stores in
each dependent's directory the post record of its filtered original, leaves
every other directory untouched, and preserves the index entry names. -/
lemma forceCleanup_spec (name : String) (now : Nat) (deps : List String) (st : StoreFs)
    (hco : Consistent st)
    (hmem : ∀ dn ∈ deps, ∃ e ∈ (loadIndex st).characters, e.name = dn)
    (hnd : (deps.map pyLower).Nodup)
    (hne : ∀ dn ∈ deps, pyLower dn ≠ pyLower name) :
    (forceCleanup name now deps st).1 = .ok () ∧
    Consistent (forceCleanup name now deps st).2 ∧
    (∀ d', d' ∉ deps.map sanitize_for_filesystem →
      lookupDir (forceCleanup name now deps st).2 d' = lookupDir st d') ∧
    (∀ dn ∈ deps, ∃ c₀, recordAt st (sanitize_for_filesystem dn) = some c₀ ∧
      recordAt (forceCleanup name now deps st).2 (sanitize_for_filesystem dn)
        = some (postRecord (removeRelsTo c₀ name) now)) ∧
    (∀ n, (∃ x ∈ (loadIndex st).characters, x.name = n) →
      ∃ x ∈ (loadIndex (forceCleanup name now deps st).2).characters, x.name = n) := by
  induction deps generalizing st with
  | nil => exact ⟨rfl, hco, fun d' _ => rfl, by simp, fun n hn => hn⟩
  | cons dep rest ih =>
    obtain ⟨e, he, hename⟩ := hmem dep (List.mem_cons_self dep rest)
    obtain ⟨c₀, hc₀, hc₀name, hget₀⟩ := get_character_of_consistent hco he
    have hrestnd : (rest.map pyLower).Nodup := by
      simp only [List.map_cons, List.nodup_cons] at hnd
      exact hnd.2
    have hdeplow : pyLower dep ∉ rest.map pyLower := by
      simp only [List.map_cons, List.nodup_cons] at hnd
      exact hnd.1
    have hsanne : ∀ dn' ∈ rest, sanitize_for_filesystem dep ≠ sanitize_for_filesystem dn' := by
      intro dn' hdn' hcontra
      obtain ⟨e', he', hename'⟩ := hmem dn' (List.mem_cons_of_mem dep hdn')
      have hlne : pyLower dep ≠ pyLower dn' := by
        intro hc
        exact hdeplow (hc ▸ List.mem_map_of_mem _ hdn')
      have hinj := sanitize_inj_on_entries hco he he'
        (by rw [hename, hename']; exact hlne)
      rw [hename, hename'] at hinj
      exact hinj hcontra
    have hdepnotin : sanitize_for_filesystem dep ∉ rest.map sanitize_for_filesystem := by
      intro hin
      obtain ⟨dn', hdn', heq⟩ := List.mem_map.mp hin
      exact hsanne dn' hdn' heq.symm
    obtain ⟨hok1, hco1, hloc1, hrec1, hnames1⟩ :=
      update_dep_step st hco e he (removeRelsTo c₀ name) hc₀name now
    rw [forceCleanup]
    rw [show get_character st dep = .ok c₀ from hename ▸ hget₀]
    try dsimp only
    rw [hok1]
    try dsimp only
    obtain ⟨ih1, ih2, ih3, ih4, ih5⟩ :=
      ih (update_character st (removeRelsTo c₀ name) now).2 hco1
        (fun dn hdn => hnames1 dn (hmem dn (List.mem_cons_of_mem dep hdn)))
        hrestnd
        (fun dn hdn => hne dn (List.mem_cons_of_mem dep hdn))
    refine ⟨ih1, ih2, ?_, ?_, ?_⟩
    · intro d' hd'
      simp only [List.map_cons, List.mem_cons, not_or] at hd'
      rw [ih3 d' hd'.2]
      rw [hloc1 d' (by rw [hename]; exact hd'.1)]
    · intro dn hdn
      rcases List.mem_cons.mp hdn with rfl | hdn'
      · refine ⟨c₀, hename ▸ hc₀, ?_⟩
        have hlook := ih3 (sanitize_for_filesystem dn) hdepnotin
        rw [recordAt_eq_of_lookup_eq hlook]
        rw [show sanitize_for_filesystem dn = sanitize_for_filesystem e.name from by
          rw [hename]]
        exact hrec1
      · obtain ⟨c₀', hc₀', hrec'⟩ := ih4 dn hdn'
        refine ⟨c₀', ?_, hrec'⟩
        rw [← hc₀']
        apply (recordAt_eq_of_lookup_eq _).symm
        apply hloc1
        rw [hename]
        intro hcontra
        exact hsanne dn hdn' hcontra.symm
    · intro n hn
      exact ih5 n (hnames1 n hn)

/-- Filtering a key out of an association list makes it unfindable. -/
lemma lookup_filter_self (l : List (String × DirContent)) (d : String) :
    (l.filter (fun p => p.1 != d)).lookup d = none := by
  induction l with
  | nil => rfl
  | cons p rest ih =>
    rw [List.filter_cons]
    by_cases hp : (p.1 != d) = true
    · rw [if_pos hp]
      simp only [List.lookup]
      rw [show (d == p.1) = false from
        beq_eq_false_iff_ne.mpr (fun he => (bne_iff_ne.mp hp) he.symm)]
      dsimp only
      exact ih
    · rw [if_neg hp]
      exact ih

/-- Filtering out another key leaves a lookup unchanged. -/
lemma lookup_filter_ne (l : List (String × DirContent)) {d d' : String} (h : d' ≠ d) :
    (l.filter (fun p => p.1 != d)).lookup d' = l.lookup d' := by
  induction l with
  | nil => rfl
  | cons p rest ih =>
    rw [List.filter_cons]
    by_cases hp : (p.1 != d) = true
    · rw [if_pos hp]
      simp only [List.lookup]
      cases hbe : (d' == p.1) with
      | true => rfl
      | false =>
        dsimp only
        exact ih
    · rw [if_neg hp]
      have hpd : p.1 = d := by simpa using hp
      simp only [List.lookup]
      rw [show (d' == p.1) = false from beq_eq_false_iff_ne.mpr (by rw [hpd]; exact h)]
      dsimp only
      exact ih

/-- After `remove_entry name`, no entry with that case-insensitive name remains. -/
lemma get_entry_remove (idx : CharacterIndex) (name : String) :
    (idx.remove_entry name).get_entry name = none := by
  unfold CharacterIndex.remove_entry CharacterIndex.get_entry
  rw [List.find?_eq_none]
  intro x hx
  have hc := List.of_mem_filter hx
  simpa using hc

/-- C1: for every consistent project and existing character `name` referenced
by at least one other character, `delete_character(name, force=true)` returns
exactly the referencing characters' names, removes the character's directory,
removes its index entry, and replaces each dependent character's stored
relationships list with the same list minus every entry whose target matches
`name` case-insensitively. -/
theorem delete_with_force (st : StoreFs) (name : String) (now : Nat)
    (hco : Consistent st)
    (hmem : ∃ e ∈ (loadIndex st).characters, e.name = name)
    (hdeps : referencingNames st name ≠ []) :
    (delete_character st name true now).1 = .ok (referencingNames st name) ∧
    lookupDir (delete_character st name true now).2 (sanitize_for_filesystem name)
      = none ∧
    (loadIndex (delete_character st name true now).2).get_entry name = none ∧
    (∀ dn ∈ referencingNames st name, ∃ c₀,
      recordAt st (sanitize_for_filesystem dn) = some c₀ ∧
      ∃ c₁, recordAt (delete_character st name true now).2 (sanitize_for_filesystem dn)
          = some c₁ ∧
        c₁.relationships = c₀.relationships.filter
          (fun r => pyLower r.target_character != pyLower name)) := by
  obtain ⟨e, he, hename⟩ := hmem
  obtain ⟨c, hc, hcname, hget⟩ := get_character_of_consistent hco he
  have hdir : dirExists st (sanitize_for_filesystem name) = true := by
    rw [← hename]
    unfold dirExists
    rw [recordAt_eq_some hc]
    rfl
  have hie : (referencingNames st name).isEmpty = false := by
    cases hrn : referencingNames st name with
    | nil => exact absurd hrn hdeps
    | cons a l => rfl
  have hdmem : ∀ dn ∈ referencingNames st name,
      ∃ x ∈ (loadIndex st).characters, x.name = dn := by
    intro dn hdn
    obtain ⟨x, hx, hxn⟩ := List.mem_map.mp hdn
    exact ⟨x, List.mem_of_mem_filter hx, hxn⟩
  have hdnd : ((referencingNames st name).map pyLower).Nodup := by
    have heq : (referencingNames st name).map pyLower =
        ((loadIndex st).characters.filter (refersTo st name)).map
          (fun x => pyLower x.name) := by
      unfold referencingNames
      rw [List.map_map]
      rfl
    rw [heq]
    exact ((List.filter_sublist _).map _).nodup hco.2.2.1
  have hdne : ∀ dn ∈ referencingNames st name, pyLower dn ≠ pyLower name := by
    intro dn hdn
    obtain ⟨x, hx, hxn⟩ := List.mem_map.mp hdn
    have hcond := List.of_mem_filter hx
    unfold refersTo at hcond
    rw [Bool.and_eq_true] at hcond
    rw [← hxn]
    simpa using hcond.1
  have hsannotin : sanitize_for_filesystem name
      ∉ (referencingNames st name).map sanitize_for_filesystem := by
    intro hin
    obtain ⟨dn, hdn, heqs⟩ := List.mem_map.mp hin
    obtain ⟨x, hx, hxn⟩ := hdmem dn hdn
    have hinj := sanitize_inj_on_entries hco hx he
      (by rw [hxn, hename]; exact hdne dn hdn)
    rw [hxn, hename] at hinj
    exact hinj heqs
  obtain ⟨fc1, fc2, fc3, fc4, fc5⟩ :=
    forceCleanup_spec name now (referencingNames st name) st hco hdmem hdnd hdne
  unfold delete_character
  rw [if_neg (by simp [hco.1])]
  try dsimp only
  rw [hdir, deps_eq_referencing st name hco]
  simp only [eq_self_iff_true, if_true]
  try dsimp only
  rw [hie]
  simp only [Bool.false_eq_true, not_false_iff, decide_True, not_true, decide_False,
    Bool.and_false, Bool.true_and, Bool.and_true, if_false, eq_self_iff_true, if_true]
  rw [fc1]
  try dsimp only
  refine ⟨rfl, ?_, ?_, ?_⟩
  · show ((forceCleanup name now (referencingNames st name) st).2.dirs.filter
        (fun p => p.1 != sanitize_for_filesystem name)).lookup
        (sanitize_for_filesystem name) = none
    exact lookup_filter_self _ _
  · exact get_entry_remove _ _
  · intro dn hdn
    obtain ⟨c₀, hc₀, hrec⟩ := fc4 dn hdn
    refine ⟨c₀, hc₀, postRecord (removeRelsTo c₀ name) now, ?_, ?_⟩
    · have hsan : sanitize_for_filesystem dn ≠ sanitize_for_filesystem name := by
        intro hcontra
        exact hsannotin (hcontra ▸ List.mem_map_of_mem _ hdn)
      show (match ((forceCleanup name now (referencingNames st name) st).2.dirs.filter
          (fun p => p.1 != sanitize_for_filesystem name)).lookup
          (sanitize_for_filesystem dn) with
        | some (DirContent.desc cc) => some cc
        | x => none) = some (postRecord (removeRelsTo c₀ name) now)
      rw [lookup_filter_ne _ hsan]
      rw [show ((forceCleanup name now (referencingNames st name) st).2.dirs.lookup
          (sanitize_for_filesystem dn)) = some (.desc (postRecord (removeRelsTo c₀ name) now))
        from recordAt_eq_some hrec]
    · rw [postRecord_relationships]
      rfl

/-- Witness for C1: force-deleting Alice on the concrete two-character project
returns the dependent list (["Bob"]), removes Alice's directory and index
entry, and strips Bob's stored relationship to Alice. -/
theorem delete_with_force_witness :
    (delete_character twoCharSt "Alice" true 1).1
      = .ok (referencingNames twoCharSt "Alice") ∧
    lookupDir (delete_character twoCharSt "Alice" true 1).2
      (sanitize_for_filesystem "Alice") = none ∧
    (loadIndex (delete_character twoCharSt "Alice" true 1).2).get_entry "Alice" = none ∧
    (∀ dn ∈ referencingNames twoCharSt "Alice", ∃ c₀,
      recordAt twoCharSt (sanitize_for_filesystem dn) = some c₀ ∧
      ∃ c₁, recordAt (delete_character twoCharSt "Alice" true 1).2
          (sanitize_for_filesystem dn) = some c₁ ∧
        c₁.relationships = c₀.relationships.filter
          (fun r => pyLower r.target_character != pyLower "Alice")) :=
  delete_with_force twoCharSt "Alice" 1
    (by unfold Consistent IndexNoDup; decide) (by decide) (by decide)

end StoryCli
